import Mathlib

/-!
Verification development for the Semantic-Document-Clustering repository.

The definitions below are shallow embeddings of the clustering/vectorization core:
* `src/app/api/cluster-documents/route.ts` (embedding generation, runKMeans, runDBSCAN,
  runOptimalClustering, calculateSilhouetteScore, cosineSimilarity, label generation
  and the label-deduplication pass of `POST`),
* `src/utils/clustering-algorithms.ts` (kMeansClustering, dbscanClustering,
  calculateSilhouetteScore with a distance-metric parameter),
* `src/utils/text-analysis.ts` (cosineSimilarity, euclideanDistance).

JavaScript numbers are modelled as real numbers; a handful of places where JS produces
`NaN`/`Infinity` are modelled with `Option` (`none` standing for the non-real value) and
are documented at the definition site.  `Math.random()` draws are passed in explicitly
as a stream `rands : ℕ → ℝ` of values in `[0,1)`, so every theorem quantifies over all
possible runs.
-/

open RealInnerProductSpace

namespace SDC

/-- A document vector of (uniform) dimension `d`: a JS `number[]` of length `d`.
All vectors inside one clustering run share the dimension (50 for the pipeline). -/
abbrev Vec (d : ℕ) := Fin d → ℝ

/-- Dot product `Σ a[i]*b[i]` as accumulated by the JS loops. -/
def dotP {d : ℕ} (a b : Vec d) : ℝ := ∑ i, a i * b i

/-- Sum of squares `Σ a[i]*a[i]` (the `normA`/`normB` accumulators before `Math.sqrt`). -/
def sumSq {d : ℕ} (a : Vec d) : ℝ := ∑ i, a i * a i

/-- `cosineSimilarity` of route.ts (lines 659-675) specialised to two arrays of the same
length `d` (as produced by `generateSemanticEmbeddings`): the loop bound
`Math.min(a.length, b.length)` is `d`.  Returns 0 when either norm is 0. -/
noncomputable def cosineSimilarityV {d : ℕ} (a b : Vec d) : ℝ :=
  if Real.sqrt (sumSq a) = 0 ∨ Real.sqrt (sumSq b) = 0 then 0
  else dotP a b / (Real.sqrt (sumSq a) * Real.sqrt (sumSq b))

/-- `cosineSimilarityDistance` of route.ts (lines 677-679). -/
noncomputable def cosineSimilarityDistance {d : ℕ} (a b : Vec d) : ℝ :=
  1 - cosineSimilarityV a b

/-- The distance-metric parameter `"euclidean" | "cosine"` of clustering-algorithms.ts. -/
inductive DistanceMetric | euclidean | cosine
deriving DecidableEq

/-- The distance used by clustering-algorithms.ts:
`euclideanDistance(a,b)` or `1 - cosineSimilarity(a,b)` depending on the metric. -/
noncomputable def distV (m : DistanceMetric) {d : ℕ} (a b : Vec d) : ℝ :=
  match m with
  | .euclidean => Real.sqrt (∑ i, (a i - b i) * (a i - b i))
  | .cosine => 1 - cosineSimilarityV a b

/-- `cosineSimilarity` of route.ts (lines 659-675) on raw JS arrays: all three
accumulators run over `i < Math.min(a.length, b.length)`, silently ignoring the tail
of the longer array. -/
noncomputable def cosineSimilarity (a b : List ℝ) : ℝ :=
  let n := min a.length b.length
  let dotProduct := ∑ i ∈ Finset.range n, a.getD i 0 * b.getD i 0
  let normA := Real.sqrt (∑ i ∈ Finset.range n, a.getD i 0 * a.getD i 0)
  let normB := Real.sqrt (∑ i ∈ Finset.range n, b.getD i 0 * b.getD i 0)
  if normA = 0 ∨ normB = 0 then 0 else dotProduct / (normA * normB)

namespace TextAnalysis

/-- `cosineSimilarity` of text-analysis.ts (lines 272-286): the loop runs over
`vecA.length`.  When `vecB` is shorter, `vecB[i]` is `undefined`, so `dotProduct` and
`normB` become `NaN`; the guard `normA === 0` still fires first (it only involves
`vecA`), otherwise the function returns `NaN`, modelled as `none`. -/
noncomputable def cosineSimilarity (vecA vecB : List ℝ) : Option ℝ :=
  let n := vecA.length
  let normASq := ∑ i ∈ Finset.range n, vecA.getD i 0 * vecA.getD i 0
  if vecA.length ≤ vecB.length then
    some (if normASq = 0 ∨ (∑ i ∈ Finset.range n, vecB.getD i 0 * vecB.getD i 0) = 0
      then 0
      else (∑ i ∈ Finset.range n, vecA.getD i 0 * vecB.getD i 0) /
        (Real.sqrt normASq * Real.sqrt (∑ i ∈ Finset.range n, vecB.getD i 0 * vecB.getD i 0)))
  else if normASq = 0 then some 0
  else none

/-- `euclideanDistance` of text-analysis.ts (lines 291-300): the loop runs over
`vecA.length`, silently ignoring extra entries of `vecB`; when `vecB` is shorter the
`undefined` access makes the result `NaN` (`none`). -/
noncomputable def euclideanDistance (vecA vecB : List ℝ) : Option ℝ :=
  if vecA.length ≤ vecB.length then
    some (Real.sqrt (∑ i ∈ Finset.range vecA.length,
      (vecA.getD i 0 - vecB.getD i 0) * (vecA.getD i 0 - vecB.getD i 0)))
  else none

end TextAnalysis

/-! ### Basic facts about the similarity functions -/

theorem sumSq_nonneg {d : ℕ} (a : Vec d) : 0 ≤ sumSq a :=
  Finset.sum_nonneg fun i _ => mul_self_nonneg (a i)

theorem sumSq_eq_zero_iff {d : ℕ} (a : Vec d) : sumSq a = 0 ↔ a = 0 := by
  constructor
  · intro h
    funext i
    have h0 : ∀ j ∈ Finset.univ, (0:ℝ) ≤ a j * a j := fun j _ => mul_self_nonneg (a j)
    have := (Finset.sum_eq_zero_iff_of_nonneg h0).mp h i (Finset.mem_univ i)
    have := mul_self_eq_zero.mp this
    simpa using this
  · intro h; subst h; simp [sumSq]

theorem sqrt_sumSq_eq_zero_iff {d : ℕ} (a : Vec d) : Real.sqrt (sumSq a) = 0 ↔ a = 0 := by
  rw [Real.sqrt_eq_zero (sumSq_nonneg a), sumSq_eq_zero_iff]

/-- Cauchy-Schwarz for the JS accumulators: `|Σ aᵢbᵢ| ≤ √(Σ aᵢ²) · √(Σ bᵢ²)`. -/
theorem abs_dotP_le {d : ℕ} (a b : Vec d) :
    |dotP a b| ≤ Real.sqrt (sumSq a) * Real.sqrt (sumSq b) := by
  have hsq : ∀ (x : Vec d), sumSq x = ∑ i, x i ^ 2 := by
    intro x; unfold sumSq; apply Finset.sum_congr rfl; intro i _; ring
  rw [abs_le]
  constructor
  · have h := Real.sum_mul_le_sqrt_mul_sqrt Finset.univ (fun i => -(a i)) b
    have : ∑ i, -(a i) * b i = -dotP a b := by unfold dotP; rw [← Finset.sum_neg_distrib]; ring_nf
    rw [this] at h
    have he : ∑ i, (-(a i)) ^ 2 = sumSq a := by rw [hsq]; apply Finset.sum_congr rfl; intro i _; ring
    rw [he, ← hsq b] at h
    linarith
  · have h := Real.sum_mul_le_sqrt_mul_sqrt Finset.univ a b
    rw [← hsq a, ← hsq b] at h
    exact h

/-- `cosineSimilarityV` always lies in `[-1, 1]`. -/
theorem cosineSimilarityV_mem_Icc {d : ℕ} (a b : Vec d) :
    -1 ≤ cosineSimilarityV a b ∧ cosineSimilarityV a b ≤ 1 := by
  unfold cosineSimilarityV
  split
  · norm_num
  · rename_i h
    push_neg at h
    obtain ⟨ha, hb⟩ := h
    have ha' : 0 < Real.sqrt (sumSq a) :=
      lt_of_le_of_ne (Real.sqrt_nonneg _) (Ne.symm ha)
    have hb' : 0 < Real.sqrt (sumSq b) :=
      lt_of_le_of_ne (Real.sqrt_nonneg _) (Ne.symm hb)
    have hpos : 0 < Real.sqrt (sumSq a) * Real.sqrt (sumSq b) := mul_pos ha' hb'
    have habs := abs_dotP_le a b
    rw [abs_le] at habs
    constructor
    · rw [le_div_iff hpos]; linarith
    · rw [div_le_one hpos]; exact habs.2

theorem cosineSimilarityV_le_one {d : ℕ} (a b : Vec d) : cosineSimilarityV a b ≤ 1 :=
  (cosineSimilarityV_mem_Icc a b).2

/-- View a JS vector as a point of Euclidean space (the types are definitionally equal). -/
def toE {d : ℕ} (a : Vec d) : EuclideanSpace ℝ (Fin d) := a

theorem norm_toE {d : ℕ} (a : Vec d) : ‖toE a‖ = Real.sqrt (sumSq a) := by
  rw [EuclideanSpace.norm_eq]
  unfold sumSq toE
  congr 1
  apply Finset.sum_congr rfl
  intro i _
  rw [Real.norm_eq_abs, sq_abs, sq]

theorem inner_toE {d : ℕ} (a b : Vec d) : ⟪toE a, toE b⟫ = dotP a b := by
  unfold dotP
  simp [toE, PiLp.inner_apply, RCLike.inner_apply, mul_comm]

/-- If the cosine similarity between `u` and `v` is exactly 1 then `v` is a positive
multiple of `u` (equality case of Cauchy-Schwarz): here packaged as transitivity, the
form needed for silhouette analysis. -/
theorem cosineSimilarityV_eq_one_trans {d : ℕ} {u v w : Vec d}
    (huv : cosineSimilarityV u v = 1) (huw : cosineSimilarityV u w = 1) :
    cosineSimilarityV v w = 1 := by
  have collinear : ∀ {x : Vec d}, cosineSimilarityV u x = 1 →
      Real.sqrt (sumSq x) ≠ 0 ∧ toE x = (‖toE x‖ / ‖toE u‖) • toE u := by
    intro x hx
    unfold cosineSimilarityV at hx
    split at hx
    · norm_num at hx
    · rename_i hne
      push_neg at hne
      obtain ⟨hu0, hx0⟩ := hne
      have hprod : Real.sqrt (sumSq u) * Real.sqrt (sumSq x) ≠ 0 := mul_ne_zero hu0 hx0
      have hdot : dotP u x = Real.sqrt (sumSq u) * Real.sqrt (sumSq x) := by
        field_simp at hx
        linarith [hx]
      have hinner : ⟪toE u, toE x⟫ = ‖toE u‖ * ‖toE x‖ := by
        rw [inner_toE, norm_toE, norm_toE]; exact hdot
      have hsmul := inner_eq_norm_mul_iff_real.mp hinner
      have hnu : ‖toE u‖ ≠ 0 := by rw [norm_toE]; exact hu0
      refine ⟨hx0, ?_⟩
      rw [eq_comm, div_eq_inv_mul, ← smul_smul, hsmul, smul_smul,
        inv_mul_cancel₀ hnu, one_smul]
  obtain ⟨hv0, hveq⟩ := collinear huv
  obtain ⟨hw0, hweq⟩ := collinear huw
  have hu0 : Real.sqrt (sumSq u) ≠ 0 := by
    unfold cosineSimilarityV at huv
    split at huv
    · norm_num at huv
    · rename_i hne; push_neg at hne; exact hne.1
  have hnu : ‖toE u‖ ≠ 0 := by rw [norm_toE]; exact hu0
  have hnv : ‖toE v‖ = Real.sqrt (sumSq v) := norm_toE v
  have hnw : ‖toE w‖ = Real.sqrt (sumSq w) := norm_toE w
  have hinner_vw : ⟪toE v, toE w⟫ = ‖toE v‖ * ‖toE w‖ := by
    have hv' : ⟪toE v, toE w⟫ =
        (‖toE v‖ / ‖toE u‖) * ((‖toE w‖ / ‖toE u‖) * ⟪toE u, toE u⟫) := by
      conv_lhs => rw [hveq, hweq]
      rw [real_inner_smul_left, real_inner_smul_right]
    rw [hv', real_inner_self_eq_norm_mul_norm]
    field_simp
    ring
  unfold cosineSimilarityV
  rw [if_neg]
  · have : dotP v w = Real.sqrt (sumSq v) * Real.sqrt (sumSq w) := by
      rw [← inner_toE, hinner_vw, hnv, hnw]
    rw [this]
    field_simp
  · push_neg
    exact ⟨hv0, hw0⟩

/-- Cosine distance 0 is transitive (needed to rule out an overall silhouette of -1). -/
theorem distV_zero_trans (m : DistanceMetric) {d : ℕ} {u v w : Vec d}
    (huv : distV m u v = 0) (huw : distV m u w = 0) : distV m v w = 0 := by
  cases m with
  | euclidean =>
    have hsq : ∀ {x y : Vec d},
        Real.sqrt (∑ i, (x i - y i) * (x i - y i)) = 0 → x = y := by
      intro x y hxy
      have hnn : (0:ℝ) ≤ ∑ i, (x i - y i) * (x i - y i) :=
        Finset.sum_nonneg fun i _ => mul_self_nonneg _
      rw [Real.sqrt_eq_zero hnn] at hxy
      have h0 : ∀ j ∈ Finset.univ, (0:ℝ) ≤ (x j - y j) * (x j - y j) :=
        fun j _ => mul_self_nonneg _
      funext i
      have := (Finset.sum_eq_zero_iff_of_nonneg h0).mp hxy i (Finset.mem_univ i)
      have := mul_self_eq_zero.mp this
      linarith [sub_eq_zero.mp this]
    have h1 := hsq huv
    have h2 := hsq huw
    subst h1
    rw [← h2]
    simp [distV]
  | cosine =>
    simp only [distV] at huv huw ⊢
    have h1 : cosineSimilarityV u v = 1 := by linarith
    have h2 : cosineSimilarityV u w = 1 := by linarith
    have := cosineSimilarityV_eq_one_trans h1 h2
    linarith

/-- Every metric the code uses yields nonnegative distances. -/
theorem distV_nonneg (m : DistanceMetric) {d : ℕ} (a b : Vec d) : 0 ≤ distV m a b := by
  cases m with
  | euclidean => exact Real.sqrt_nonneg _
  | cosine =>
    have := cosineSimilarityV_le_one a b
    simp only [distV]
    linarith

/-! ### Silhouette scorer

`calculateSilhouetteScore` appears twice in the repository: clustering-algorithms.ts
lines 375-450 (with a `distanceMetric` parameter) and route.ts lines 601-656 (the same
body with the metric fixed to cosine).  We embed the parametric version; the route
version is its cosine instance.

A cluster map `{0: [...], 1: [...]}` always has contiguous numeric keys at the call
sites, so it is modelled as `List (List ℕ)` with the position as the cluster id. -/

/-- `a(i)`: average distance from point `p` to the other members of its cluster
(`0` for singletons).  The JS loop skips `otherPointIdx` equal (as a value) to `p`. -/
noncomputable def intraA (m : DistanceMetric) {d : ℕ} (vectors : List (Vec d))
    (cluster : List ℕ) (p : ℕ) : ℝ :=
  if 1 < cluster.length then
    ((cluster.filter (· ≠ p)).map
      (fun q => distV m (vectors.getD p 0) (vectors.getD q 0))).sum
      / ((cluster.length : ℝ) - 1)
  else 0

/-- Average distance from `p` to the points of cluster `other`; `none` models the JS
`Number.POSITIVE_INFINITY` returned for an empty cluster. -/
noncomputable def interAvg (m : DistanceMetric) {d : ℕ} (vectors : List (Vec d))
    (other : List ℕ) (p : ℕ) : Option ℝ :=
  if 0 < other.length then
    some ((other.map (fun q => distV m (vectors.getD p 0) (vectors.getD q 0))).sum
      / (other.length : ℝ))
  else none

/-- Minimum on `Option ℝ` where `none` stands for `+∞`. -/
def optMin (a b : Option ℝ) : Option ℝ :=
  match a, b with
  | none, b => b
  | some x, none => some x
  | some x, some y => some (min x y)

/-- `b(i)`: minimum average distance from `p` to any *other* cluster (by key). -/
noncomputable def interB (m : DistanceMetric) {d : ℕ} (vectors : List (Vec d))
    (clusters : List (List ℕ)) (cid : ℕ) (p : ℕ) : Option ℝ :=
  ((clusters.enum.filter (fun c => c.1 ≠ cid)).map
    (fun c => interAvg m vectors c.2 p)).foldl optMin none

/-- Per-point silhouette (utils lines 434-442 / route lines 641-648):
`0` if `a == b == 0`; `1 - a/b` if `a < b`; `b/a - 1` otherwise.
With `b = Infinity` (`none`) the JS takes the `a < b` branch and `1 - a/Infinity = 1`
for the (always finite) `a`. -/
noncomputable def perPointSilhouette (a : ℝ) (b : Option ℝ) : ℝ :=
  match b with
  | none => 1
  | some bv => if a = 0 ∧ bv = 0 then 0 else if a < bv then 1 - a / bv else bv / a - 1

/-- The flattened list of per-point silhouette values (iterating clusters in key order
and points in list order, exactly as the nested JS loops do). -/
noncomputable def silhouettePoints (m : DistanceMetric) {d : ℕ} (vectors : List (Vec d))
    (clusters : List (List ℕ)) : List ℝ :=
  (clusters.enum.map (fun c => c.2.map
    (fun p => perPointSilhouette (intraA m vectors c.2 p) (interB m vectors clusters c.1 p)))).flatten

/-- `calculateSilhouetteScore` (clustering-algorithms.ts lines 375-450): returns 0 for
fewer than 2 clusters, otherwise the mean per-point silhouette (0 if there are no
points at all). -/
noncomputable def calculateSilhouetteScore (m : DistanceMetric) {d : ℕ}
    (vectors : List (Vec d)) (clusters : List (List ℕ)) : ℝ :=
  if clusters.length ≤ 1 then 0
  else
    let pts := silhouettePoints m vectors clusters
    if 0 < pts.length then pts.sum / (pts.length : ℝ) else 0

namespace Route

/-- `calculateSilhouetteScore` of route.ts (lines 601-656): textually the cosine
instance of the clustering-algorithms.ts implementation embedded above. -/
noncomputable def calculateSilhouetteScore {d : ℕ} (vectors : List (Vec d))
    (clusters : List (List ℕ)) : ℝ :=
  SDC.calculateSilhouetteScore .cosine vectors clusters

end Route

/-! ### Bounds on the silhouette -/

theorem intraA_nonneg (m : DistanceMetric) {d : ℕ} (vectors : List (Vec d))
    (cluster : List ℕ) (p : ℕ) : 0 ≤ intraA m vectors cluster p := by
  unfold intraA
  split
  · rename_i h
    apply div_nonneg
    · apply List.sum_nonneg
      intro x hx
      obtain ⟨q, _, rfl⟩ := List.mem_map.mp hx
      exact distV_nonneg m _ _
    · have : (1:ℝ) < cluster.length := by exact_mod_cast h
      linarith
  · exact le_refl 0

theorem interAvg_nonneg (m : DistanceMetric) {d : ℕ} (vectors : List (Vec d))
    (other : List ℕ) (p : ℕ) {v : ℝ} (h : interAvg m vectors other p = some v) : 0 ≤ v := by
  unfold interAvg at h
  split at h
  · rename_i hlen
    have hv : v = (other.map (fun q => distV m (vectors.getD p 0) (vectors.getD q 0))).sum
        / (other.length : ℝ) := by
      injection h with h'
      exact h'.symm
    rw [hv]
    apply div_nonneg
    · apply List.sum_nonneg
      intro x hx
      obtain ⟨q, _, rfl⟩ := List.mem_map.mp hx
      exact distV_nonneg m _ _
    · positivity
  · exact absurd h (by simp)

/-- If `optMin a b` is present, its value is the value of `a` or of `b`. -/
theorem optMin_eq_some {a b : Option ℝ} {w : ℝ} (h : optMin a b = some w) :
    a = some w ∨ b = some w := by
  rcases a with _ | x <;> rcases b with _ | y <;> simp only [optMin] at h
  · exact Option.noConfusion h
  · exact Or.inr h
  · exact Or.inl h
  · injection h with h'
    rcases min_choice x y with hm | hm
    · left; rw [hm] at h'; rw [h']
    · right; rw [hm] at h'; rw [h']

/-- `optMin` folded from `none` over a list of nonnegative/absent values stays
nonnegative when present. -/
theorem foldl_optMin_nonneg (l : List (Option ℝ)) (acc : Option ℝ)
    (hacc : ∀ v, acc = some v → 0 ≤ v)
    (hl : ∀ x ∈ l, ∀ v, x = some v → 0 ≤ v) :
    ∀ v, l.foldl optMin acc = some v → 0 ≤ v := by
  induction l generalizing acc with
  | nil => simpa using hacc
  | cons x xs ih =>
    intro v hv
    refine ih (optMin acc x) ?_ (fun y hy => hl y (List.mem_cons_of_mem x hy)) v hv
    intro w hw
    rcases optMin_eq_some hw with h | h
    · exact hacc w h
    · exact hl x (List.mem_cons_self x xs) w h

/-- A present folded minimum is attained: it is the accumulator or one of the list
entries. -/
theorem foldl_optMin_attained (l : List (Option ℝ)) (acc : Option ℝ) {z : ℝ}
    (h : l.foldl optMin acc = some z) : acc = some z ∨ some z ∈ l := by
  induction l generalizing acc with
  | nil => exact Or.inl h
  | cons x xs ih =>
    rcases ih (optMin acc x) h with h' | h'
    · rcases optMin_eq_some h' with h'' | h''
      · exact Or.inl h''
      · exact Or.inr (by rw [← h'']; exact List.mem_cons_self x xs)
    · exact Or.inr (List.mem_cons_of_mem x h')

theorem interB_nonneg (m : DistanceMetric) {d : ℕ} (vectors : List (Vec d))
    (clusters : List (List ℕ)) (cid p : ℕ) {v : ℝ}
    (h : interB m vectors clusters cid p = some v) : 0 ≤ v := by
  unfold interB at h
  refine foldl_optMin_nonneg _ none (by simp) ?_ v h
  intro x hx w hw
  obtain ⟨c, _, rfl⟩ := List.mem_map.mp hx
  exact interAvg_nonneg m vectors c.2 p hw

/-- Per-point silhouette values lie in `[-1, 1]` whenever `a ≥ 0` and `b ≥ 0` (or `∞`). -/
theorem perPointSilhouette_mem_Icc {a : ℝ} {b : Option ℝ} (ha : 0 ≤ a)
    (hb : ∀ v, b = some v → 0 ≤ v) :
    -1 ≤ perPointSilhouette a b ∧ perPointSilhouette a b ≤ 1 := by
  unfold perPointSilhouette
  match b with
  | none => norm_num
  | some bv =>
    have hbv : 0 ≤ bv := hb bv rfl
    simp only
    split
    · norm_num
    · rename_i hne
      split
      · rename_i hab
        have hbpos : 0 < bv := lt_of_le_of_lt ha hab
        have h1 : 0 ≤ a / bv := div_nonneg ha hbpos.le
        have h2 : a / bv < 1 := (div_lt_one hbpos).mpr hab
        constructor <;> linarith
      · rename_i hab
        push_neg at hab
        have hapos : 0 < a := by
          rcases lt_or_eq_of_le ha with h | h
          · exact h
          · exfalso
            have hb0 : bv = 0 := le_antisymm (h ▸ hab) hbv
            exact hne ⟨h.symm, hb0⟩
        have h1 : 0 ≤ bv / a := div_nonneg hbv hapos.le
        have h2 : bv / a ≤ 1 := (div_le_one hapos).mpr (hab.trans_eq rfl)
        constructor <;> linarith

theorem silhouettePoints_mem_Icc (m : DistanceMetric) {d : ℕ} (vectors : List (Vec d))
    (clusters : List (List ℕ)) :
    ∀ x ∈ silhouettePoints m vectors clusters, -1 ≤ x ∧ x ≤ 1 := by
  intro x hx
  unfold silhouettePoints at hx
  obtain ⟨l, hl, hxl⟩ := List.mem_flatten.mp hx
  obtain ⟨c, _, rfl⟩ := List.mem_map.mp hl
  obtain ⟨p, _, rfl⟩ := List.mem_map.mp hxl
  exact perPointSilhouette_mem_Icc (intraA_nonneg m vectors c.2 p)
    (fun v hv => interB_nonneg m vectors clusters c.1 p hv)

theorem list_sum_le_length (l : List ℝ) (h : ∀ x ∈ l, x ≤ 1) : l.sum ≤ (l.length : ℝ) := by
  induction l with
  | nil => simp
  | cons x xs ih =>
    simp only [List.sum_cons, List.length_cons]
    push_cast
    have hx := h x (List.mem_cons_self x xs)
    have hxs := ih (fun y hy => h y (List.mem_cons_of_mem x hy))
    linarith

theorem neg_length_le_list_sum (l : List ℝ) (h : ∀ x ∈ l, -1 ≤ x) :
    -(l.length : ℝ) ≤ l.sum := by
  induction l with
  | nil => simp
  | cons x xs ih =>
    simp only [List.sum_cons, List.length_cons]
    push_cast
    have hx := h x (List.mem_cons_self x xs)
    have hxs := ih (fun y hy => h y (List.mem_cons_of_mem x hy))
    linarith

theorem list_sum_eq_zero_forall (l : List ℝ) (h0 : ∀ x ∈ l, 0 ≤ x) (hs : l.sum = 0) :
    ∀ x ∈ l, x = 0 := by
  induction l with
  | nil => simp
  | cons y ys ih =>
    simp only [List.sum_cons] at hs
    have hy := h0 y (List.mem_cons_self y ys)
    have hys : 0 ≤ ys.sum := List.sum_nonneg (fun x hx => h0 x (List.mem_cons_of_mem y hx))
    have hy0 : y = 0 := by linarith
    intro x hx
    rcases List.mem_cons.mp hx with rfl | hx'
    · exact hy0
    · exact ih (fun z hz => h0 z (List.mem_cons_of_mem y hz)) (by linarith) x hx'

theorem list_sum_gt_neg_length (l : List ℝ) (hall : ∀ x ∈ l, -1 ≤ x)
    {x₀ : ℝ} (hx₀ : x₀ ∈ l) (hgt : -1 < x₀) : -(l.length : ℝ) < l.sum := by
  induction l with
  | nil => cases hx₀
  | cons y ys ih =>
    simp only [List.sum_cons, List.length_cons]
    push_cast
    rcases List.mem_cons.mp hx₀ with rfl | hmem
    · have := neg_length_le_list_sum ys (fun x hx => hall x (List.mem_cons_of_mem x₀ hx))
      linarith
    · have hy := hall y (List.mem_cons_self y ys)
      have := ih (fun x hx => hall x (List.mem_cons_of_mem y hx)) hmem
      linarith

/-- When a per-point silhouette hits `-1`, the offending point sits at cosine distance 0
from every point of some *other* cluster; by transitivity of distance-0 that entire
cluster is internally at distance 0, so all of its per-point silhouettes are ≥ 0. -/
theorem exists_nonneg_of_perPoint_eq_neg_one (m : DistanceMetric) {d : ℕ}
    (vectors : List (Vec d)) (clusters : List (List ℕ)) {cid : ℕ} {c : List ℕ} {p : ℕ}
    (hs : perPointSilhouette (intraA m vectors c p) (interB m vectors clusters cid p) = -1) :
    ∃ y ∈ silhouettePoints m vectors clusters, 0 ≤ y := by
  set a := intraA m vectors c p with ha_def
  have ha : 0 ≤ a := intraA_nonneg m vectors c p
  -- Step 1: the interB value must be `some 0`.
  have hb0 : interB m vectors clusters cid p = some 0 := by
    unfold perPointSilhouette at hs
    rcases hB : interB m vectors clusters cid p with _ | bv
    · rw [hB] at hs; norm_num at hs
    · rw [hB] at hs
      simp only at hs
      have hbv : 0 ≤ bv := interB_nonneg m vectors clusters cid p hB
      split at hs
      · norm_num at hs
      · rename_i hne
        split at hs
        · rename_i hab
          have hbpos : 0 < bv := lt_of_le_of_lt ha hab
          have : a / bv = 2 := by linarith
          have h1 : a / bv < 1 := (div_lt_one hbpos).mpr hab
          linarith
        · rename_i hab
          push_neg at hab
          have hdiv : bv / a = 0 := by linarith
          rcases div_eq_zero_iff.mp hdiv with hb | ha0
          · rw [hb]
          · exfalso
            have hbz : bv = 0 := le_antisymm (ha0 ▸ hab) hbv
            exact hne ⟨ha0, hbz⟩
  -- Step 2: some other cluster has average distance 0 from p.
  obtain ⟨pair, hpair_mem, hpair_avg⟩ :
      ∃ pair ∈ clusters.enum.filter (fun c => c.1 ≠ cid),
        interAvg m vectors pair.2 p = some 0 := by
    unfold interB at hb0
    rcases foldl_optMin_attained _ none hb0 with h | h
    · exact Option.noConfusion h
    · obtain ⟨pair, hmem, hval⟩ := List.mem_map.mp h
      exact ⟨pair, hmem, hval⟩
  obtain ⟨cid', c'⟩ := pair
  have henum : (cid', c') ∈ clusters.enum := (List.mem_filter.mp hpair_mem).1
  -- Step 3: each distance from p into c' is 0.
  have hclen : 0 < c'.length := by
    by_contra hlen
    unfold interAvg at hpair_avg
    rw [if_neg hlen] at hpair_avg
    exact Option.noConfusion hpair_avg
  have hdist0 : ∀ q ∈ c', distV m (vectors.getD p 0) (vectors.getD q 0) = 0 := by
    have hsum : (c'.map (fun q => distV m (vectors.getD p 0) (vectors.getD q 0))).sum = 0 := by
      unfold interAvg at hpair_avg
      rw [if_pos hclen] at hpair_avg
      injection hpair_avg with h'
      have hlen' : (0:ℝ) < (c'.length : ℝ) := by exact_mod_cast hclen
      rcases div_eq_zero_iff.mp h' with h'' | h''
      · exact h''
      · exfalso; rw [h''] at hlen'; exact lt_irrefl 0 hlen'
    intro q hq
    exact list_sum_eq_zero_forall _
      (fun x hx => by
        obtain ⟨r, _, rfl⟩ := List.mem_map.mp hx
        exact distV_nonneg m _ _)
      hsum _ (List.mem_map_of_mem _ hq)
  -- Step 4: the per-point silhouette of every member of c' is ≥ 0.
  have hgood : ∀ q ∈ c', 0 ≤ perPointSilhouette (intraA m vectors c' q)
      (interB m vectors clusters cid' q) := by
    intro q hq
    have haq : intraA m vectors c' q = 0 := by
      unfold intraA
      split
      · have : ((c'.filter (· ≠ q)).map
            (fun r => distV m (vectors.getD q 0) (vectors.getD r 0))).sum = 0 := by
          apply List.sum_eq_zero
          intro x hx
          obtain ⟨r, hr, rfl⟩ := List.mem_map.mp hx
          have hr' : r ∈ c' := List.mem_of_mem_filter hr
          exact distV_zero_trans m (hdist0 q hq) (hdist0 r hr')
        rw [this, zero_div]
      · rfl
    rw [haq]
    unfold perPointSilhouette
    rcases hB : interB m vectors clusters cid' q with _ | bv
    · norm_num
    · have hbv : 0 ≤ bv := interB_nonneg m vectors clusters cid' q hB
      simp only
      split
      · exact le_refl 0
      · rename_i hne
        have hbpos : 0 < bv := by
          rcases lt_or_eq_of_le hbv with h | h
          · exact h
          · refine absurd ⟨?_, h.symm⟩ hne
            trivial
        rw [if_pos hbpos]
        rw [zero_div]
        norm_num
  -- Step 5: pick a member of c' and exhibit its silhouette value.
  obtain ⟨q₀, hq₀⟩ := List.exists_mem_of_length_pos hclen
  refine ⟨perPointSilhouette (intraA m vectors c' q₀) (interB m vectors clusters cid' q₀),
    ?_, hgood q₀ hq₀⟩
  unfold silhouettePoints
  apply List.mem_flatten.mpr
  refine ⟨c'.map (fun q => perPointSilhouette (intraA m vectors c' q)
    (interB m vectors clusters cid' q)), ?_, List.mem_map_of_mem _ hq₀⟩
  exact List.mem_map_of_mem
    (fun pr => pr.2.map (fun q => perPointSilhouette (intraA m vectors pr.2 q)
      (interB m vectors clusters pr.1 q))) henum

/-- The silhouette score can never be exactly `-1`: it is always strictly above. -/
theorem calculateSilhouetteScore_gt_neg_one (m : DistanceMetric) {d : ℕ}
    (vectors : List (Vec d)) (clusters : List (List ℕ)) :
    -1 < calculateSilhouetteScore m vectors clusters := by
  unfold calculateSilhouetteScore
  split
  · norm_num
  · simp only
    split
    · rename_i hlen
      set pts := silhouettePoints m vectors clusters with hpts
      have hmem := silhouettePoints_mem_Icc m vectors clusters
      have hlpos : (0:ℝ) < pts.length := by exact_mod_cast hlen
      rw [lt_div_iff₀ hlpos]
      have hex : ∃ y ∈ pts, -1 < y := by
        obtain ⟨x₀, hx₀⟩ := List.exists_mem_of_length_pos hlen
        rcases lt_or_eq_of_le (hmem x₀ hx₀).1 with h | h
        · exact ⟨x₀, hx₀, h⟩
        · obtain ⟨pair_list, hpl, hxin⟩ := List.mem_flatten.mp hx₀
          obtain ⟨pr, hpr, rfl⟩ := List.mem_map.mp hpl
          obtain ⟨p, _, hpx⟩ := List.mem_map.mp hxin
          obtain ⟨y, hy, hy0⟩ := @exists_nonneg_of_perPoint_eq_neg_one m _ vectors clusters
            pr.1 pr.2 p (by rw [hpx, ← h])
          exact ⟨y, hy, by linarith⟩
      obtain ⟨y, hy, hygt⟩ := hex
      have := list_sum_gt_neg_length pts (fun x hx => (hmem x hx).1) hy hygt
      linarith
    · norm_num

/-- The silhouette score always lies in `[-1, 1]`. -/
theorem calculateSilhouetteScore_mem_Icc (m : DistanceMetric) {d : ℕ}
    (vectors : List (Vec d)) (clusters : List (List ℕ)) :
    -1 ≤ calculateSilhouetteScore m vectors clusters ∧
      calculateSilhouetteScore m vectors clusters ≤ 1 := by
  unfold calculateSilhouetteScore
  split
  · norm_num
  · simp only
    split
    · rename_i hlen
      set pts := silhouettePoints m vectors clusters with hpts
      have hmem := silhouettePoints_mem_Icc m vectors clusters
      have hlo := neg_length_le_list_sum pts (fun x hx => (hmem x hx).1)
      have hhi := list_sum_le_length pts (fun x hx => (hmem x hx).2)
      have hlpos : (0:ℝ) < pts.length := by exact_mod_cast hlen
      constructor
      · rw [le_div_iff₀ hlpos]; linarith
      · rw [div_le_one hlpos]; linarith
    · norm_num

/-! ### DBSCAN

`runDBSCAN` (route.ts lines 501-598) and `dbscanClustering` (clustering-algorithms.ts
lines 257-370) share the same algorithm body; the utils version takes the distance
metric as a parameter, the route version fixes cosine.  The shared body is embedded
once, parametrised by the metric. -/

/-- `getNeighbors(pointIdx)`: every index (the point itself included) whose distance
from `pointIdx` is at most `eps`. -/
noncomputable def getNeighbors (m : DistanceMetric) {d : ℕ} (vectors : List (Vec d))
    (eps : ℝ) (p : ℕ) : List ℕ :=
  (List.range vectors.length).filter
    (fun i => distV m (vectors.getD p 0) (vectors.getD i 0) ≤ eps)

/-- The `while (j < neighbors.length)` expansion loop.  `done` holds the completed
clusters, `current` the growing cluster (together they are the JS `clusters` object).
`fuel` only bounds the recursion; the queue is duplicate-free and drawn from
`range vectors.length`, so `vectors.length` steps always suffice and the JS loop (which
stops as soon as `j` reaches the queue length) is reproduced exactly.
The JS pushes new neighbours one by one, each push checking `!neighbors.includes(·)`
against the already-extended queue; since `getNeighbors` returns a duplicate-free list
this is the same as appending the batch filter below. -/
noncomputable def dbscanExpand (m : DistanceMetric) {d : ℕ} (vectors : List (Vec d))
    (eps : ℝ) (minPts : ℕ) (done : List (List ℕ)) :
    ℕ → List ℕ → ℕ → Finset ℕ → List ℕ → Finset ℕ × List ℕ
  | 0, _, _, visited, current => (visited, current)
  | fuel + 1, neighbors, j, visited, current =>
    if j < neighbors.length then
      dbscanExpand m vectors eps minPts done fuel
        (if neighbors.getD j 0 ∉ visited ∧
            minPts ≤ (getNeighbors m vectors eps (neighbors.getD j 0)).length then
          neighbors ++ (getNeighbors m vectors eps (neighbors.getD j 0)).filter
            (fun x => x ∉ neighbors)
        else neighbors)
        (j + 1)
        (insert (neighbors.getD j 0) visited)
        (if neighbors.getD j 0 ∈ done.flatten ∨ neighbors.getD j 0 ∈ current then current
        else current ++ [neighbors.getD j 0])
    else (visited, current)

/-- The main DBSCAN loop over the points `0 .. n-1` (`pending`), carrying the visited
set, the noise list and the completed clusters. -/
noncomputable def dbscanMain (m : DistanceMetric) {d : ℕ} (vectors : List (Vec d))
    (eps : ℝ) (minPts : ℕ) :
    List ℕ → Finset ℕ → List ℕ → List (List ℕ) → List ℕ × List (List ℕ)
  | [], _, noise, clusters => (noise, clusters)
  | i :: rest, visited, noise, clusters =>
    if i ∈ visited then dbscanMain m vectors eps minPts rest visited noise clusters
    else
      if (getNeighbors m vectors eps i).length < minPts then
        dbscanMain m vectors eps minPts rest (insert i visited) (noise ++ [i]) clusters
      else
        dbscanMain m vectors eps minPts rest
          (dbscanExpand m vectors eps minPts clusters vectors.length
            (getNeighbors m vectors eps i) 0 (insert i visited) [i]).1
          noise
          (clusters ++ [(dbscanExpand m vectors eps minPts clusters vectors.length
            (getNeighbors m vectors eps i) 0 (insert i visited) [i]).2])

/-- Noise folding (route lines 558-567 / utils lines 343-354): at most 3 noise points
become singleton clusters, more than 3 become one extra cluster. -/
def foldNoise (noise : List ℕ) (clusters : List (List ℕ)) : List (List ℕ) :=
  if noise.length = 0 then clusters
  else if noise.length ≤ 3 then clusters ++ noise.map (fun i => [i])
  else clusters ++ [noise]

/-- Per-cluster coherence: average pairwise cosine similarity, `1.0` for clusters of
size ≤ 1 (route lines 471-490 and 571-591). -/
noncomputable def pairSimSum {d : ℕ} (vectors : List (Vec d)) : List ℕ → ℝ
  | [] => 0
  | p :: rest =>
    (rest.map (fun q => cosineSimilarityV (vectors.getD p 0) (vectors.getD q 0))).sum
      + pairSimSum vectors rest

noncomputable def clusterCoherence {d : ℕ} (vectors : List (Vec d)) (cluster : List ℕ) : ℝ :=
  if cluster.length ≤ 1 then 1
  else
    let pairCount := cluster.length * (cluster.length - 1) / 2
    if 0 < pairCount then pairSimSum vectors cluster / (pairCount : ℝ) else 0

/-- Result record of route.ts `runDBSCAN`. -/
structure DBSCANRun where
  clusters : List (List ℕ)
  clusterCoherence : List ℝ
  silhouetteScore : ℝ

/-- `runDBSCAN` of route.ts (lines 501-598), metric fixed to cosine. -/
noncomputable def runDBSCAN {d : ℕ} (vectors : List (Vec d)) (eps : ℝ) (minPts : ℕ) :
    DBSCANRun :=
  let r := dbscanMain .cosine vectors eps minPts (List.range vectors.length) ∅ [] []
  let clusters := foldNoise r.1 r.2
  { clusters := clusters
    clusterCoherence := clusters.map (clusterCoherence vectors)
    silhouetteScore := calculateSilhouetteScore .cosine vectors clusters }

/-- Algorithm-details records of clustering-algorithms.ts (the early-return branches
build objects with fewer fields, hence separate constructors). -/
inductive UtilsDetails where
  | kmeansEmpty (k : ℕ) (iterations : ℕ)
  | kmeans (k : ℕ) (iterations : ℕ) (distanceMetric : DistanceMetric) (clusterCount : ℕ)
  | dbscanEmpty (epsilon : ℝ) (minPoints : ℕ)
  | dbscan (epsilon : ℝ) (minPoints : ℕ) (noisePoints : ℕ) (clusterCount : ℕ)

/-- `ClusteringResult` of clustering-algorithms.ts.  `clusters` is keyed (cluster id,
indices); `centroids` is optional exactly as in the interface. -/
structure UtilsClusteringResult (d : ℕ) where
  clusters : List (ℕ × List ℕ)
  centroids : Option (List (Vec d))
  silhouetteScore : ℝ
  algorithm : String
  algorithmDetails : UtilsDetails

/-- `dbscanClustering` (clustering-algorithms.ts lines 257-370). -/
noncomputable def dbscanClustering {d : ℕ} (vectors : List (Vec d)) (eps : ℝ)
    (minPts : ℕ) (m : DistanceMetric) : UtilsClusteringResult d :=
  if vectors.length = 0 then
    { clusters := [], centroids := none, silhouetteScore := 0,
      algorithm := "DBSCAN", algorithmDetails := .dbscanEmpty eps minPts }
  else
    let r := dbscanMain m vectors eps minPts (List.range vectors.length) ∅ [] []
    let clusters := foldNoise r.1 r.2
    { clusters := clusters.enum
      centroids := none
      silhouetteScore := calculateSilhouetteScore m vectors clusters
      algorithm := "DBSCAN"
      algorithmDetails := .dbscan eps minPts r.1.length clusters.length }

/-! ### DBSCAN completeness: no document index is lost -/

/-- Inner-loop invariant: every visited point is accounted for (noise, a completed
cluster, or the current cluster), the current cluster only grows, and visitedness is
monotone. -/
theorem dbscanExpand_spec (m : DistanceMetric) {d : ℕ} (vectors : List (Vec d))
    (eps : ℝ) (minPts : ℕ) (done : List (List ℕ)) (noiseL : List ℕ) :
    ∀ (fuel : ℕ) (neighbors : List ℕ) (j : ℕ) (visited : Finset ℕ) (current : List ℕ),
    (∀ q ∈ visited, q ∈ noiseL ∨ q ∈ done.flatten ∨ q ∈ current) →
    (∀ q ∈ (dbscanExpand m vectors eps minPts done fuel neighbors j visited current).1,
        q ∈ noiseL ∨ q ∈ done.flatten ∨
          q ∈ (dbscanExpand m vectors eps minPts done fuel neighbors j visited current).2) ∧
    (∀ x ∈ current,
        x ∈ (dbscanExpand m vectors eps minPts done fuel neighbors j visited current).2) := by
  intro fuel
  induction fuel with
  | zero =>
    intro neighbors j visited current hinv
    exact ⟨hinv, fun x hx => hx⟩
  | succ fuel ih =>
    intro neighbors j visited current hinv
    rw [dbscanExpand]
    split
    · rename_i hj
      set cp := neighbors.getD j 0 with hcp
      by_cases hmem : cp ∈ done.flatten ∨ cp ∈ current
      · rw [if_pos hmem]
        apply ih
        intro q hq
        rcases Finset.mem_insert.mp hq with rfl | hq'
        · rcases hmem with h | h
          · exact Or.inr (Or.inl h)
          · exact Or.inr (Or.inr h)
        · exact hinv q hq'
      · rw [if_neg hmem]
        have hstep := ih
          (if cp ∉ visited ∧ minPts ≤ (getNeighbors m vectors eps cp).length then
            neighbors ++ (getNeighbors m vectors eps cp).filter (fun x => x ∉ neighbors)
          else neighbors)
          (j + 1) (insert cp visited) (current ++ [cp]) ?_
        · refine ⟨hstep.1, fun x hx => hstep.2 x (List.mem_append_left _ hx)⟩
        · intro q hq
          rcases Finset.mem_insert.mp hq with rfl | hq'
          · exact Or.inr (Or.inr (List.mem_append_right _ (List.mem_singleton_self _)))
          · rcases hinv q hq' with h | h | h
            · exact Or.inl h
            · exact Or.inr (Or.inl h)
            · exact Or.inr (Or.inr (List.mem_append_left _ h))
    · exact ⟨hinv, fun x hx => hx⟩

/-- Visitedness is monotone through the expansion loop. -/
theorem dbscanExpand_visited_mono (m : DistanceMetric) {d : ℕ} (vectors : List (Vec d))
    (eps : ℝ) (minPts : ℕ) (done : List (List ℕ)) :
    ∀ (fuel : ℕ) (neighbors : List ℕ) (j : ℕ) (visited : Finset ℕ) (current : List ℕ),
    ∀ q ∈ visited,
      q ∈ (dbscanExpand m vectors eps minPts done fuel neighbors j visited current).1 := by
  intro fuel
  induction fuel with
  | zero => intro neighbors j visited current q hq; exact hq
  | succ fuel ih =>
    intro neighbors j visited current q hq
    rw [dbscanExpand]
    split
    · exact ih _ _ _ _ q (Finset.mem_insert_of_mem hq)
    · exact hq

/-- Outer-loop completeness: starting from an invariant-respecting state, after the
main loop every pending point and every previously accounted point is in the final
noise list or in some final cluster. -/
theorem dbscanMain_complete (m : DistanceMetric) {d : ℕ} (vectors : List (Vec d))
    (eps : ℝ) (minPts : ℕ) :
    ∀ (pending : List ℕ) (visited : Finset ℕ) (noise : List ℕ) (clusters : List (List ℕ)),
    (∀ q ∈ visited, q ∈ noise ∨ q ∈ clusters.flatten) →
    (∀ i ∈ pending,
        i ∈ (dbscanMain m vectors eps minPts pending visited noise clusters).1 ∨
        i ∈ (dbscanMain m vectors eps minPts pending visited noise clusters).2.flatten) ∧
    (∀ x ∈ noise, x ∈ (dbscanMain m vectors eps minPts pending visited noise clusters).1) ∧
    (∀ x ∈ clusters.flatten,
        x ∈ (dbscanMain m vectors eps minPts pending visited noise clusters).2.flatten) ∧
    (∀ q ∈ visited,
        q ∈ (dbscanMain m vectors eps minPts pending visited noise clusters).1 ∨
        q ∈ (dbscanMain m vectors eps minPts pending visited noise clusters).2.flatten) := by
  intro pending
  induction pending with
  | nil =>
    intro visited noise clusters hinv
    exact ⟨by simp, fun x hx => hx, fun x hx => hx, hinv⟩
  | cons i rest ih =>
    intro visited noise clusters hinv
    rw [dbscanMain]
    split
    · rename_i hvis
      obtain ⟨hpend, hnoise, hclus, hvisited⟩ := ih visited noise clusters hinv
      refine ⟨?_, hnoise, hclus, hvisited⟩
      intro x hx
      rcases List.mem_cons.mp hx with rfl | hx'
      · exact hvisited x hvis
      · exact hpend x hx'
    · rename_i hvis
      split
      · rename_i hsmall
        have hinv' : ∀ q ∈ insert i visited,
            q ∈ noise ++ [i] ∨ q ∈ clusters.flatten := by
          intro q hq
          rcases Finset.mem_insert.mp hq with rfl | hq'
          · exact Or.inl (List.mem_append_right _ (List.mem_singleton_self q))
          · rcases hinv q hq' with h | h
            · exact Or.inl (List.mem_append_left _ h)
            · exact Or.inr h
        obtain ⟨hpend, hnoise, hclus, hvisited⟩ := ih (insert i visited) (noise ++ [i]) clusters hinv'
        refine ⟨?_, fun x hx => hnoise x (List.mem_append_left _ hx), hclus, ?_⟩
        · intro x hx
          rcases List.mem_cons.mp hx with rfl | hx'
          · exact hvisited x (Finset.mem_insert_self x visited)
          · exact hpend x hx'
        · intro q hq
          exact hvisited q (Finset.mem_insert_of_mem hq)
      · rename_i hbig
        set r := dbscanExpand m vectors eps minPts clusters vectors.length
          (getNeighbors m vectors eps i) 0 (insert i visited) [i] with hr
        have hexp := dbscanExpand_spec m vectors eps minPts clusters noise
          vectors.length (getNeighbors m vectors eps i) 0 (insert i visited) [i] ?_
        · have hinv' : ∀ q ∈ r.1, q ∈ noise ∨ q ∈ (clusters ++ [r.2]).flatten := by
            intro q hq
            rcases hexp.1 q hq with h | h | h
            · exact Or.inl h
            · exact Or.inr (by
                rw [List.flatten_append]
                exact List.mem_append_left _ h)
            · exact Or.inr (by
                rw [List.flatten_append]
                exact List.mem_append_right _ (by simpa using h))
          obtain ⟨hpend, hnoise, hclus, hvisited⟩ := ih r.1 noise (clusters ++ [r.2]) hinv'
          refine ⟨?_, hnoise, ?_, ?_⟩
          · intro x hx
            rcases List.mem_cons.mp hx with rfl | hx'
            · exact hvisited x (by
                have : x ∈ insert x visited := Finset.mem_insert_self x visited
                have hsub : insert x visited ⊆ r.1 := by
                  intro y hy
                  exact dbscanExpand_visited_mono m vectors eps minPts clusters
                    vectors.length (getNeighbors m vectors eps x) 0 (insert x visited) [x] y hy
                exact hsub this)
            · exact hpend x hx'
          · intro x hx
            apply hclus
            rw [List.flatten_append]
            exact List.mem_append_left _ hx
          · intro q hq
            have : q ∈ r.1 := dbscanExpand_visited_mono m vectors eps minPts clusters
              vectors.length (getNeighbors m vectors eps i) 0 (insert i visited) [i] q
              (Finset.mem_insert_of_mem hq)
            exact hvisited q this
        · intro q hq
          rcases Finset.mem_insert.mp hq with rfl | hq'
          · exact Or.inr (Or.inr (List.mem_singleton_self q))
          · rcases hinv q hq' with h | h
            · exact Or.inl h
            · exact Or.inr (Or.inl h)

/-! ### K-means (route.ts `runKMeans`, lines 355-498)

`Math.random()` draws are modelled by the stream `rands`: draw 0 picks the first
centroid, and the roulette draw of the seeding round that adds centroid number
`c` (i.e. runs while `centroids.length = c`) is `rands c` — the JS draws happen in
exactly this order, one per non-breaking round. -/

/-- Minimum distance from `x` to the existing centroids (JS starts from `Infinity`;
the list is never empty at the call sites, the `[]` case is unreachable). -/
noncomputable def minDistToCentroids (m : DistanceMetric) {d : ℕ} (x : Vec d) :
    List (Vec d) → ℝ
  | [] => 0
  | c :: rest => rest.foldl (fun acc c' => min acc (distV m x c')) (distV m x c)

/-- The roulette-wheel scan (route lines 388-402): first candidate whose cumulative
distance reaches the threshold. -/
noncomputable def rouletteSelect : List (ℕ × ℝ) → ℝ → ℝ → Option ℕ
  | [], _, _ => none
  | (i, di) :: rest, acc, threshold =>
    if threshold ≤ acc + di then some i else rouletteSelect rest (acc + di) threshold

/-- The k-means++ seeding loop of route.ts (lines 370-412).  Each non-breaking round
adds exactly one centroid, so `fuel = k` always outlasts the `centroids.length < k`
condition; the loop stops on the condition (or a `break`), never on fuel. -/
noncomputable def kmeansSeedLoop (m : DistanceMetric) {d : ℕ} (vectors : List (Vec d))
    (k : ℕ) (rands : ℕ → ℝ) : ℕ → List (Vec d) → Finset ℕ → List (Vec d) × Finset ℕ
  | 0, centroids, used => (centroids, used)
  | fuel + 1, centroids, used =>
    if centroids.length < k then
      let unused := (List.range vectors.length).filter (fun i => i ∉ used)
      let dists := unused.map (fun i =>
        minDistToCentroids m (vectors.getD i 0) centroids *
          minDistToCentroids m (vectors.getD i 0) centroids)
      if dists.sum = 0 then (centroids, used)
      else
        match
          match rouletteSelect (unused.zip dists) 0 (rands centroids.length * dists.sum) with
          | some i => some i
          | none => unused.head?
        with
        | none => (centroids, used)
        | some i => kmeansSeedLoop m vectors k rands fuel
            (centroids ++ [vectors.getD i 0]) (insert i used)
    else (centroids, used)

/-- Index of the nearest centroid (strict `<`, so ties keep the earlier centroid);
`bestCentroid` starts at 0 and the first comparison against `Infinity` always
succeeds, so a nonempty list starts from its head. -/
noncomputable def nearestCentroidAux (m : DistanceMetric) {d : ℕ} (x : Vec d) :
    List (Vec d) → ℕ → ℕ → ℝ → ℕ
  | [], _, best, _ => best
  | c :: rest, j, best, minDist =>
    if distV m x c < minDist then nearestCentroidAux m x rest (j + 1) j (distV m x c)
    else nearestCentroidAux m x rest (j + 1) best minDist

noncomputable def nearestCentroid (m : DistanceMetric) {d : ℕ} (x : Vec d)
    (centroids : List (Vec d)) : ℕ :=
  match centroids with
  | [] => 0
  | c :: rest => nearestCentroidAux m x rest 1 0 (distV m x c)

/-- Assignment step: initialise `k` empty clusters, then push every index onto the
cluster of its nearest centroid (route lines 420-441).  `List.set` is a no-op beyond
`k`, but `nearestCentroid` provably stays below `k` at the call sites. -/
noncomputable def assignClusters (m : DistanceMetric) {d : ℕ} (vectors : List (Vec d))
    (centroids : List (Vec d)) (k : ℕ) : List (List ℕ) :=
  (List.range vectors.length).foldl
    (fun clusters i =>
      clusters.set (nearestCentroid m (vectors.getD i 0) centroids)
        (clusters.getD (nearestCentroid m (vectors.getD i 0) centroids) [] ++ [i]))
    (List.replicate k [])

/-- Mean of the vectors assigned to a cluster. -/
noncomputable def meanVec {d : ℕ} (vectors : List (Vec d)) (cluster : List ℕ) : Vec d :=
  fun dim => (cluster.map (fun p => vectors.getD p 0 dim)).sum / (cluster.length : ℝ)

/-- Centroid update (route lines 443-459): clusters with no points are skipped. -/
noncomputable def updateCentroids {d : ℕ} (vectors : List (Vec d))
    (centroids : List (Vec d)) (clusters : List (List ℕ)) (k : ℕ) : List (Vec d) :=
  (List.range k).foldl
    (fun cent i =>
      if (clusters.getD i []).length = 0 then cent
      else cent.set i (meanVec vectors (clusters.getD i [])))
    centroids

structure KMeansIterState (d : ℕ) where
  centroids : List (Vec d)
  bestClusters : List (List ℕ)
  bestSilhouette : ℝ
  iterations : ℕ

/-- The `for (iter …)` loop of route.ts (lines 418-468): assign, update centroids,
score, and keep the best-scoring assignment snapshot.  The loop always runs all
`maxIterations` rounds. -/
noncomputable def kmeansIterLoop {d : ℕ} (vectors : List (Vec d)) (k : ℕ) :
    ℕ → KMeansIterState d → KMeansIterState d
  | 0, st => st
  | iterLeft + 1, st =>
    kmeansIterLoop vectors k iterLeft
      (if st.bestSilhouette <
          calculateSilhouetteScore .cosine vectors (assignClusters .cosine vectors st.centroids k)
        then
          { centroids := updateCentroids vectors st.centroids
              (assignClusters .cosine vectors st.centroids k) k
            bestClusters := assignClusters .cosine vectors st.centroids k
            bestSilhouette := calculateSilhouetteScore .cosine vectors
              (assignClusters .cosine vectors st.centroids k)
            iterations := st.iterations + 1 }
        else
          { centroids := updateCentroids vectors st.centroids
              (assignClusters .cosine vectors st.centroids k) k
            bestClusters := st.bestClusters
            bestSilhouette := st.bestSilhouette
            iterations := st.iterations + 1 })

/-- Result record of route.ts `runKMeans`. -/
structure KMeansRun where
  clusters : List (List ℕ)
  clusterCoherence : List ℝ
  silhouetteScore : ℝ
  iterations : ℕ

/-- `runKMeans` of route.ts (lines 355-498). -/
noncomputable def runKMeans {d : ℕ} (vectors : List (Vec d)) (k₀ : ℕ) (rands : ℕ → ℝ)
    (maxIterations : ℕ := 20) : KMeansRun :=
  let k := if vectors.length < k₀ then vectors.length else k₀
  let firstIndex := (⌊rands 0 * (vectors.length : ℝ)⌋).toNat
  let seed := kmeansSeedLoop .cosine vectors k rands k
    [vectors.getD firstIndex 0] ({firstIndex} : Finset ℕ)
  let final := kmeansIterLoop vectors k maxIterations
    { centroids := seed.1, bestClusters := [], bestSilhouette := -1, iterations := 0 }
  { clusters := final.bestClusters
    clusterCoherence := final.bestClusters.map (clusterCoherence vectors)
    silhouetteScore := final.bestSilhouette
    iterations := final.iterations }

/-! ### route.ts `runOptimalClustering` (lines 308-352) -/

noncomputable def pairDistSum {d : ℕ} : List (Vec d) → ℝ
  | [] => 0
  | v :: rest => (rest.map (fun w => cosineSimilarityDistance v w)).sum + pairDistSum rest

inductive AlgoDetails where
  | kmeans (k : ℕ) (iterations : ℕ) (clusterCount : ℕ)
  | dbscan (epsilon : ℝ) (minPts : ℕ) (clusterCount : ℕ)

structure OptimalResult where
  clusters : List (List ℕ)
  clusterCoherence : List ℝ
  silhouetteScore : ℝ
  iterations : Option ℕ
  algorithm : String
  algorithmDetails : AlgoDetails

/-- `runOptimalClustering` of route.ts: derive `k`, `epsilon`, `minPts`, run both
engines, and return the result with the strictly higher silhouette (K-means on ties). -/
noncomputable def runOptimalClustering {d : ℕ} (embeddings : List (Vec d))
    (documentCount : ℕ) (rands : ℕ → ℝ) : OptimalResult :=
  let k := (min (max 2 ⌈Real.sqrt ((documentCount : ℝ) / 2)⌉) 10).toNat
  let pairCount := embeddings.length * (embeddings.length - 1) / 2
  let avgDistance := if 0 < pairCount then pairDistSum embeddings / (pairCount : ℝ)
    else 0.5
  let epsilon := avgDistance * 1.5
  let minPts := max 2 (min 4 (documentCount / 10))
  let kmeansResult := runKMeans embeddings k rands
  let dbscanResult := runDBSCAN embeddings epsilon minPts
  if kmeansResult.silhouetteScore < dbscanResult.silhouetteScore then
    { clusters := dbscanResult.clusters
      clusterCoherence := dbscanResult.clusterCoherence
      silhouetteScore := dbscanResult.silhouetteScore
      iterations := none
      algorithm := "DBSCAN"
      algorithmDetails := .dbscan epsilon minPts dbscanResult.clusters.length }
  else
    { clusters := kmeansResult.clusters
      clusterCoherence := kmeansResult.clusterCoherence
      silhouetteScore := kmeansResult.silhouetteScore
      iterations := some kmeansResult.iterations
      algorithm := "K-means"
      algorithmDetails := .kmeans k kmeansResult.iterations kmeansResult.clusters.length }

/-! ### K-means (clustering-algorithms.ts `kMeansClustering`, lines 17-252) -/

/-- Farthest-point fallback of the utils seeding (lines 89-108): first unused index
with maximal minimum distance to the centroids; `maxDist` starts at `-1`. -/
noncomputable def farthestAux (m : DistanceMetric) {d : ℕ} (vectors : List (Vec d))
    (centroids : List (Vec d)) : List ℕ → ℝ → Option ℕ → Option ℕ
  | [], _, best => best
  | j :: rest, maxDist, best =>
    if maxDist < minDistToCentroids m (vectors.getD j 0) centroids then
      farthestAux m vectors centroids rest
        (minDistToCentroids m (vectors.getD j 0) centroids) (some j)
    else farthestAux m vectors centroids rest maxDist best

/-- The `for (i = 1; i < k; i++)` seeding loop of clustering-algorithms.ts
(lines 50-114).  Iteration `i` draws `rands i`; a failed roulette falls back to the
farthest unused point; if even that yields nothing the round adds no centroid. -/
noncomputable def utilsSeedLoop (m : DistanceMetric) {d : ℕ} (vectors : List (Vec d))
    (rands : ℕ → ℝ) : ℕ → ℕ → List (Vec d) → Finset ℕ → List (Vec d) × Finset ℕ
  | 0, _, centroids, used => (centroids, used)
  | left + 1, i, centroids, used =>
    match
      match
        rouletteSelect
          (((List.range vectors.length).filter (fun j => j ∉ used)).zip
            (((List.range vectors.length).filter (fun j => j ∉ used)).map (fun j =>
              minDistToCentroids m (vectors.getD j 0) centroids *
                minDistToCentroids m (vectors.getD j 0) centroids)))
          0
          (rands i * (((List.range vectors.length).filter (fun j => j ∉ used)).map (fun j =>
            minDistToCentroids m (vectors.getD j 0) centroids *
              minDistToCentroids m (vectors.getD j 0) centroids)).sum)
      with
      | some j => some j
      | none => farthestAux m vectors centroids
          ((List.range vectors.length).filter (fun j => j ∉ used)) (-1) none
    with
    | none => utilsSeedLoop m vectors rands left (i + 1) centroids used
    | some j => utilsSeedLoop m vectors rands left (i + 1)
        (centroids ++ [vectors.getD j 0]) (insert j used)

/-- First cluster index of maximal size (lines 182-190: strict improvement over a
running maximum that starts at 0, so ties keep the earlier cluster). -/
def largestClusterIdx (clusters : List (List ℕ)) (k : ℕ) : ℕ :=
  (List.range k).foldl
    (fun best j =>
      if (clusters.getD best []).length < (clusters.getD j []).length then j else best) 0

/-- Centroid update with convergence detection (lines 148-176): skip empty clusters,
move each centroid to the mean of its cluster, and flag a change when some centroid
moved by more than 0.001. -/
noncomputable def updateCentroidsChanged (m : DistanceMetric) {d : ℕ}
    (vectors : List (Vec d)) (clusters : List (List ℕ)) (k : ℕ)
    (centroids : List (Vec d)) : List (Vec d) × Bool :=
  (List.range k).foldl
    (fun st i =>
      if (clusters.getD i []).length = 0 then st
      else
        (st.1.set i (meanVec vectors (clusters.getD i [])),
          if 0.001 < distV m (st.1.getD i 0) (meanVec vectors (clusters.getD i []))
          then true else st.2))
    (centroids, false)

/-- Empty-cluster repair (lines 178-224): an empty cluster steals the first
`ceil(size/2)` points of the (first) largest cluster, both centroids are recomputed,
and the change flag is raised. -/
noncomputable def repairEmptyClusters {d : ℕ} (vectors : List (Vec d)) (k : ℕ) :
    List (List ℕ) × List (Vec d) × Bool → List (List ℕ) × List (Vec d) × Bool :=
  fun st =>
    (List.range k).foldl
      (fun st i =>
        if (st.1.getD i []).length = 0 then
          if 2 ≤ (st.1.getD (largestClusterIdx st.1 k) []).length then
            ((st.1.set (largestClusterIdx st.1 k)
                ((st.1.getD (largestClusterIdx st.1 k) []).drop
                  (((st.1.getD (largestClusterIdx st.1 k) []).length + 1) / 2))).set i
                ((st.1.getD (largestClusterIdx st.1 k) []).take
                  (((st.1.getD (largestClusterIdx st.1 k) []).length + 1) / 2)),
              (st.2.1.set i (meanVec vectors
                ((st.1.getD (largestClusterIdx st.1 k) []).take
                  (((st.1.getD (largestClusterIdx st.1 k) []).length + 1) / 2)))).set
                (largestClusterIdx st.1 k)
                (meanVec vectors ((st.1.getD (largestClusterIdx st.1 k) []).drop
                  (((st.1.getD (largestClusterIdx st.1 k) []).length + 1) / 2))),
              true)
          else st
        else st)
      st

structure UtilsKMeansState (d : ℕ) where
  clusters : List (List ℕ)
  centroids : List (Vec d)
  iterations : ℕ

/-- The `while (!converged && iterations < maxIterations)` loop (lines 121-228).
Each pass increments `iterations`; starting from `fuel = maxIterations` the fuel can
never run out before the iteration bound. -/
noncomputable def utilsKMeansLoop (m : DistanceMetric) {d : ℕ} (vectors : List (Vec d))
    (k : ℕ) (maxIterations : ℕ) : ℕ → UtilsKMeansState d → UtilsKMeansState d
  | 0, st => st
  | fuel + 1, st =>
    if st.iterations < maxIterations then
      match repairEmptyClusters vectors k
        (assignClusters m vectors st.centroids k,
          (updateCentroidsChanged m vectors (assignClusters m vectors st.centroids k) k
            st.centroids).1,
          (updateCentroidsChanged m vectors (assignClusters m vectors st.centroids k) k
            st.centroids).2) with
      | (clusters', centroids', changed) =>
        if changed then
          utilsKMeansLoop m vectors k maxIterations fuel
            { clusters := clusters', centroids := centroids', iterations := st.iterations + 1 }
        else
          { clusters := clusters', centroids := centroids', iterations := st.iterations + 1 }
    else st

/-- `kMeansClustering` (clustering-algorithms.ts lines 17-252).  The empty-input
early return happens before `k` is clamped, so its details record the raw `k`. -/
noncomputable def kMeansClustering {d : ℕ} (vectors : List (Vec d)) (k₀ : ℕ)
    (maxIterations : ℕ) (m : DistanceMetric) (rands : ℕ → ℝ) : UtilsClusteringResult d :=
  if vectors.length = 0 then
    { clusters := [], centroids := some [], silhouetteScore := 0,
      algorithm := "K-means", algorithmDetails := .kmeansEmpty k₀ 0 }
  else
    let k := if vectors.length < k₀ then vectors.length else k₀
    let firstIndex := (⌊rands 0 * (vectors.length : ℝ)⌋).toNat
    let seed := utilsSeedLoop m vectors rands (k - 1) 1
      [vectors.getD firstIndex 0] ({firstIndex} : Finset ℕ)
    let final := utilsKMeansLoop m vectors k maxIterations maxIterations
      { clusters := [], centroids := seed.1, iterations := 0 }
    { clusters := final.clusters.enum.filter (fun c => c.2.length ≠ 0)
      centroids := some final.centroids
      silhouetteScore := calculateSilhouetteScore m vectors final.clusters
      algorithm := "K-means"
      algorithmDetails := .kmeans k final.iterations m
        (final.clusters.enum.filter (fun c => c.2.length ≠ 0)).length }

/-! ### Vectorizer (`generateSemanticEmbeddings`, route.ts lines 200-305)

String primitives of the JS runtime are modelled at the character level.  The only
part left abstract is the regex-engine match count for the ten topic-pattern
alternations (lines 204-231), passed in as `topicMatch : ℕ → String → ℕ` (pattern
index ↦ document ↦ number of matches): the claims about the vectorizer hold for every
match count, so no property of the regex engine is assumed. -/

/-- JS `\s` (the whitespace characters occurring in practice; JS additionally treats
some exotic unicode spaces as `\s`, which changes nothing below). -/
def jsIsSpace (c : Char) : Bool :=
  c = ' ' || c = '\t' || c = '\n' || c = '\r' || c = '\x0b' || c = '\x0c'

def jsToLower (s : String) : String := String.mk (s.toList.map Char.toLower)

/-- `split(/\s+/)` followed by the `length > 2` filter.  (JS `split(/\s+/)` merges
delimiter runs where `splitOnP` produces empty fragments; the length filter removes
those in both readings, so the resulting word lists agree.) -/
def jsWords (s : String) : List String :=
  ((s.toList.splitOnP jsIsSpace).map (fun l => String.mk l)).filter (fun w => 2 < w.length)

def countChars (s : String) (cs : List Char) : ℕ := (s.toList.filter (· ∈ cs)).length

/-- Number of maximal runs of characters satisfying `p` (JS global match count of
`/p+/`, e.g. `/\d+/g`). -/
def countRunsAux (p : Char → Bool) : List Char → Bool → ℕ
  | [], _ => 0
  | c :: rest, prev => (if p c && !prev then 1 else 0) + countRunsAux p rest (p c)

def countRuns (p : Char → Bool) (l : List Char) : ℕ := countRunsAux p l false

def isUpperAZ (c : Char) : Bool := 'A' ≤ c && c ≤ 'Z'
def isLowerAZ (c : Char) : Bool := 'a' ≤ c && c ≤ 'z'

/-- Global match count of `/[A-Z][a-z]+/`: a match starts exactly at an upper-case
character followed by a lower-case one, and matches cannot overlap. -/
def countUpperLower : List Char → ℕ
  | [] => 0
  | [_] => 0
  | a :: b :: rest =>
    (if isUpperAZ a && isLowerAZ b then 1 else 0) + countUpperLower (b :: rest)

/-- The ten document-statistics features (route lines 254-264). -/
noncomputable def docStats (doc : String) : List ℝ :=
  [Real.log ((doc.length : ℝ) + 1) / 10,
   ((jsWords (jsToLower doc)).length : ℝ) / 100,
   (countChars doc ['.', '!', '?'] : ℝ) / 10,
   (countChars doc ['\n'] : ℝ) / 5,
   (countRuns Char.isDigit doc.toList : ℝ) / 10,
   (countUpperLower doc.toList : ℝ) / 20,
   (((jsWords (jsToLower doc)).filter (fun w => 8 < w.length)).length : ℝ) / 10,
   (countChars doc ['(', ')', ',', ';', ':'] : ℝ) / 20,
   (if (jsWords (jsToLower doc)).length = 0 then 0
    else ((jsWords (jsToLower doc)).dedup.length : ℝ) / ((jsWords (jsToLower doc)).length : ℝ)),
   (((jsWords (jsToLower doc)).filter (fun w =>
      w.endsWith "ing" || w.endsWith "tion" || w.endsWith "ment")).length : ℝ) / 10]

/-- `a.includes(b)` on strings. -/
def jsIncludes (s sub : String) : Bool := decide (sub.toList <:+: s.toList)

/-- The `semanticRelationships` catalogue (route lines 234-245), in source order. -/
def semanticRelationships : List (String × List String) :=
  [("algorithm", ["method", "technique", "approach", "procedure", "process", "strategy"]),
   ("programming", ["coding", "development", "software", "computer", "technology"]),
   ("machine learning",
    ["ai", "artificial intelligence", "neural network", "deep learning", "data science"]),
   ("nlp", ["natural language processing", "text analysis", "linguistics", "language model"]),
   ("database", ["data", "storage", "sql", "query", "information"]),
   ("web", ["internet", "website", "online", "browser", "html", "css", "javascript"]),
   ("business", ["company", "enterprise", "organization", "corporate", "commercial"]),
   ("finance", ["money", "financial", "economic", "investment", "banking"]),
   ("research", ["study", "analysis", "investigation", "experiment", "academic"]),
   ("science", ["scientific", "theory", "hypothesis", "methodology", "empirical"])]

/-- Semantic-relationship score: +2 for the concept, +1 per related term present. -/
def semScore (docLower : String) (concept : String) (terms : List String) : ℕ :=
  (if jsIncludes docLower concept then 2 else 0) +
    (terms.filter (fun t => jsIncludes docLower t)).length

/-- The raw 50-dimensional feature vector before normalization: 10 statistics,
10 topic scores, 10 semantic scores, 20 slots that remain 0 (both `vectorIndex`
guard breaks are unreachable with the catalogues of the source). -/
noncomputable def rawFeatureVector (topicMatch : ℕ → String → ℕ) (doc : String) :
    List ℝ :=
  docStats doc
    ++ (List.range 10).map (fun t => min 1 ((topicMatch t doc : ℝ) / 5))
    ++ semanticRelationships.map (fun cr =>
        min 1 ((semScore (jsToLower doc) cr.1 cr.2 : ℝ) / 5))
    ++ List.replicate 20 0

/-- L2 normalization (route lines 293-299): divide by the magnitude when positive,
otherwise leave the vector untouched. -/
noncomputable def normalizeVector (v : List ℝ) : List ℝ :=
  if 0 < Real.sqrt (v.map (fun x => x * x)).sum then
    v.map (fun x => x / Real.sqrt (v.map (fun y => y * y)).sum)
  else v

noncomputable def generateSemanticEmbeddings (topicMatch : ℕ → String → ℕ)
    (documents : List String) : List (List ℝ) :=
  documents.map (fun doc => normalizeVector (rawFeatureVector topicMatch doc))

/-! ### Labeler and the label-deduplication pass of `POST`

route.ts: `extractKeyTerms` (lines 682-912), `generateClusterLabel` (lines 1126-1366)
and the summary/deduplication section of `POST` (lines 99-148).

JS objects used as maps (`tf`, `allTerms`, `labelCounts`, `tfidf`) are modelled as
insertion-ordered association lists.  (For keys that look like array indices JS
enumerates them first; the theorems below are insensitive to enumeration order, so
insertion order is used throughout.) -/

/-- JS `\w` = `[A-Za-z0-9_]`. -/
def jsIsWordChar (c : Char) : Bool :=
  ('a' ≤ c && c ≤ 'z') || ('A' ≤ c && c ≤ 'Z') || ('0' ≤ c && c ≤ '9') || c = '_'

/-- `replace(/[^\w\s]/g, " ")` at character level. -/
def normalizeChars (s : String) : List Char :=
  s.toList.map (fun c => if jsIsWordChar c || jsIsSpace c then c else ' ')

/-- Lower-case, strip non-word characters, split on whitespace.  The source applies
`replace(/\s+/g, " ").trim()` before splitting on `/\s+/`; both readings produce the
same nonempty fragments, and empty fragments are dropped by every later length
filter. -/
def jsTokens (s : String) : List String :=
  ((normalizeChars (jsToLower s)).splitOnP jsIsSpace).map String.mk

/-- An apostrophe character, for the stop-word list. -/
def apos : Char := Char.ofNat 39

def ap (a b : String) : String := a ++ String.mk [apos] ++ b

/-- The stop-word list of route.ts (lines 694-869), in source order. -/
def stopWords : List String :=
  ["a", "about", "above", "after", "again", "against", "all", "am", "an", "and", "any",
   "are", ap "aren" "t", "as", "at", "be", "because", "been", "before", "being", "below",
   "between", "both", "but", "by", ap "can" "t", "cannot", "could", ap "couldn" "t",
   "did", ap "didn" "t", "do", "does", ap "doesn" "t", "doing", ap "don" "t", "down",
   "during", "each", "few", "for", "from", "further", "had", ap "hadn" "t", "has",
   ap "hasn" "t", "have", ap "haven" "t", "having", "he", ap "he" "d", ap "he" "ll",
   ap "he" "s", "her", "here", ap "here" "s", "hers", "herself", "him", "himself",
   "his", "how", ap "how" "s", "i", ap "i" "d", ap "i" "ll", ap "i" "m", ap "i" "ve",
   "if", "in", "into", "is", ap "isn" "t", "it", ap "it" "s", "its", "itself",
   ap "let" "s", "me", "more", "most", ap "mustn" "t", "my", "myself", "no", "nor",
   "not", "of", "off", "on", "once", "only", "or", "other", "ought", "our", "ours",
   "ourselves", "out", "over", "own", "same", ap "shan" "t", "she", ap "she" "d",
   ap "she" "ll", ap "she" "s", "should", ap "shouldn" "t", "so", "some", "such",
   "than", "that", ap "that" "s", "the", "their", "theirs", "them", "themselves",
   "then", "there", ap "there" "s", "these", "they", ap "they" "d", ap "they" "ll",
   ap "they" "re", ap "they" "ve", "this", "those", "through", "to", "too", "under",
   "until", "up", "very", "was", ap "wasn" "t", "we", ap "we" "d", ap "we" "ll",
   ap "we" "re", ap "we" "ve", "were", ap "weren" "t", "what", ap "what" "s", "when",
   ap "when" "s", "where", ap "where" "s", "which", "while", "who", ap "who" "s",
   "whom", "why", ap "why" "s", "with", ap "won" "t", "would", ap "wouldn" "t", "you",
   ap "you" "d", ap "you" "ll", ap "you" "re", ap "you" "ve", "your", "yours",
   "yourself", "yourselves"]

/-- `map[w] = (map[w] || 0) + 1` on an insertion-ordered association list. -/
def bumpCount (l : List (String × ℕ)) (w : String) : List (String × ℕ) :=
  if l.any (fun p => p.1 = w) then
    l.map (fun p => if p.1 = w then (p.1, p.2 + 1) else p)
  else l ++ [(w, 1)]

def lookupCount (l : List (String × ℕ)) (w : String) : ℕ :=
  ((l.find? (fun p => p.1 = w)).map Prod.snd).getD 0

/-- `extractKeyTerms` of route.ts (lines 682-912): TF-IDF over the normalized,
stop-word-filtered tokens of the document at `docIndex`; top `count` terms by score
(stable descending sort, as JS `sort` is stable). -/
noncomputable def extractKeyTerms (documents : List String) (docIndex : ℕ)
    (count : ℕ := 8) : List String :=
  let allWords := documents.map (fun doc =>
    (jsTokens doc).filter (fun w => w ∉ stopWords ∧ 2 < w.length))
  let currentWords := allWords.getD docIndex []
  if currentWords.length = 0 then []
  else
    let tf := currentWords.foldl bumpCount []
    let uniqueWords := currentWords.dedup
    let tfidf := uniqueWords.map (fun w =>
      (w, (lookupCount tf w : ℝ) *
        Real.log ((documents.length : ℝ) /
          ((if (allWords.filter (fun ws => w ∈ ws)).length = 0 then 1
            else (allWords.filter (fun ws => w ∈ ws)).length : ℕ) : ℝ))))
    ((tfidf.mergeSort (fun a b => decide (b.2 ≤ a.2))).take count).map Prod.fst

/-- The category catalogue of `generateClusterLabel` (route lines 1128-1317):
(name, keyword list, display label), in source order. -/
def categories : List (String × List String × String) :=
  [("Sports",
    (["sports", "game", "team", "player", "match", "win", "coach", "league",
      "championship", "score", "football", "basketball", "baseball", "soccer",
      "tennis", "golf", "hockey", "athletic", "tournament"], "Sports")),
   ("Machine Learning",
    (["machine learning", "algorithm", "model", "training", "neural", "network",
      "deep learning", "classification", "regression", "prediction", "ai",
      "artificial intelligence", "learning"], "Machine Learning & AI")),
   ("Natural Language Processing",
    (["nlp", "natural language", "text", "language", "embedding", "sentiment",
      "tokenization", "parsing", "word", "corpus"], "Natural Language Processing")),
   ("Web Development",
    (["web", "html", "css", "javascript", "react", "frontend", "backend", "api",
      "server", "client", "browser", "http", "node"], "Web Development")),
   ("Data Science",
    (["data", "analysis", "statistics", "visualization", "dataset", "processing",
      "pandas", "numpy", "matplotlib", "analytics"], "Data Science & Analytics")),
   ("Computer Vision",
    (["image", "vision", "computer vision", "detection", "recognition", "cnn",
      "visual", "pixel", "convolutional"], "Computer Vision")),
   ("Cloud & DevOps",
    (["cloud", "docker", "kubernetes", "deployment", "aws", "azure",
      "infrastructure", "devops", "container"], "Cloud & DevOps")),
   ("Database",
    (["database", "sql", "nosql", "mongodb", "postgresql", "query", "table",
      "index", "schema"], "Database & Storage")),
   ("Security",
    (["security", "encryption", "authentication", "authorization", "vulnerability",
      "cryptography", "password", "firewall"], "Security & Encryption")),
   ("Finance",
    (["finance", "money", "bank", "investment", "stock", "trading", "market",
      "price", "financial"], "Finance & Trading")),
   ("Healthcare",
    (["health", "medical", "disease", "treatment", "hospital", "doctor", "patient",
      "medicine", "therapy", "clinical"], "Healthcare & Medicine")),
   ("Education",
    (["education", "learning", "student", "teacher", "school", "university",
      "course", "lesson", "academic"], "Education & Learning"))]

/-- Category score (route lines 1323-1345): keyword hit adds `3×frequency` (or a flat
2 when the keyword has no measured frequency); each top term substring-matching a
keyword (either direction) adds 5. -/
def categoryScore (combinedLower : String) (topTerms : List String)
    (allTerms : List (String × ℕ)) (keywords : List String) : ℕ :=
  keywords.foldl
    (fun s kw =>
      if jsIncludes combinedLower (jsToLower kw) then
        s + (if 0 < lookupCount allTerms kw then lookupCount allTerms kw * 3 else 2)
      else s) 0
  + 5 * (topTerms.filter (fun t =>
      keywords.any (fun k => jsIncludes k (jsToLower t) || jsIncludes (jsToLower t) k))).length

/-- `charAt(0).toUpperCase() + slice(1)`. -/
def jsCapitalize (t : String) : String :=
  match t.toList with
  | [] => ""
  | c :: rest => String.mk (c.toUpper :: rest)

/-- The fallback label from the top terms (route lines 1354-1365). -/
def labelFallback (topTerms : List String) : String :=
  if 0 < topTerms.length then
    if 0 < (((topTerms.take 3).map jsCapitalize).filter (fun t => 2 < t.length)).length then
      String.intercalate ", "
        (((topTerms.take 3).map jsCapitalize).filter (fun t => 2 < t.length)) ++ " Documents"
    else "Documents"
  else "Documents"

/-- `generateClusterLabel` (route lines 1126-1366).  The JS keeps a `categoryScores`
map keyed by category name and looks the winner's label back up in the catalogue;
carrying each category record through the sort is the same computation. -/
noncomputable def generateClusterLabel (clusterTexts : List String)
    (topTerms : List String) (allTerms : List (String × ℕ)) : String :=
  let combinedText := jsToLower (String.intercalate " " clusterTexts)
  let scored := (categories.map (fun c =>
    (c, categoryScore combinedText topTerms allTerms c.2.1))).filter (fun p => 0 < p.2)
  match (scored.mergeSort (fun a b => decide (b.2 ≤ a.2))).head? with
  | some best => best.1.2.2
  | none => labelFallback topTerms

/-- The per-cluster term aggregation of `POST` (lines 104-117): merge the key terms of
the cluster's documents into `allTerms`, then take the 8 most frequent as `topTerms`. -/
noncomputable def clusterAllTerms (documents : List String) (docIndices : List ℕ) :
    List (String × ℕ) :=
  docIndices.foldl (fun acc idx => (extractKeyTerms documents idx 8).foldl bumpCount acc) []

noncomputable def clusterTopTerms (documents : List String) (docIndices : List ℕ) :
    List String :=
  (((clusterAllTerms documents docIndices).mergeSort
    (fun a b => decide (b.2 ≤ a.2))).take 8).map Prod.fst

/-- Decimal rendering of a JS integer in a template literal. -/
def jsNatRepr (n : ℕ) : String :=
  if n = 0 then "0" else String.mk ((Nat.digits 10 n).reverse.map Nat.digitChar)

def setCount (l : List (String × ℕ)) (w : String) (n : ℕ) : List (String × ℕ) :=
  l.map (fun p => if p.1 = w then (p.1, n) else p)

/-- The label-deduplication pass of `POST` (lines 132-148): the first occurrence of a
label is kept as is; each later occurrence gets ` (c)` appended, where `c` is the
post-incremented count for that base label. -/
def dedupAux (counts : List (String × ℕ)) : List String → List String
  | [] => []
  | l :: rest =>
    if 0 < lookupCount counts l then
      (l ++ " (" ++ jsNatRepr (lookupCount counts l + 1) ++ ")") ::
        dedupAux (setCount counts l (lookupCount counts l + 1)) rest
    else l :: dedupAux (counts ++ [(l, 1)]) rest

def dedupLabels (labels : List String) : List String := dedupAux [] labels

/-- The labels `POST` sends back, in cluster-key order: one `generateClusterLabel`
per cluster followed by the deduplication pass. -/
noncomputable def responseLabels (documents : List String) (clusters : List (List ℕ)) :
    List String :=
  dedupLabels (clusters.map (fun docIndices =>
    generateClusterLabel (docIndices.map (fun idx => documents.getD idx ""))
      (clusterTopTerms documents docIndices) (clusterAllTerms documents docIndices)))

/-! ### Claim theorems -/

/-- Route's array cosineSimilarity on two equal-length vectors agrees with the
`Vec`-typed version. -/
theorem cosineSimilarity_eq_vec (a b : List ℝ) (h : a.length = b.length) :
    cosineSimilarity a b =
      cosineSimilarityV (d := a.length) (fun i => a.getD i 0) (fun i => b.getD i 0) := by
  unfold cosineSimilarity cosineSimilarityV dotP sumSq
  have hmin : min a.length b.length = a.length := by omega
  simp only [hmin]
  have e1 : ∀ (f g : List ℝ),
      (∑ i : Fin a.length, f.getD (i : ℕ) 0 * g.getD (i : ℕ) 0) =
        ∑ i ∈ Finset.range a.length, f.getD i 0 * g.getD i 0 :=
    fun f g => Fin.sum_univ_eq_sum_range (fun i => f.getD i 0 * g.getD i 0) a.length
  rw [e1 a a, e1 b b, e1 a b]

/-- C4: on equal-length vectors, `cosineSimilarity` returns 0 exactly when either
norm is 0, otherwise `dot/(‖a‖·‖b‖)` with a nonzero denominator (so no NaN can
arise), and the result always lies in `[-1, 1]`; the text-analysis implementation
returns the same value.  -/
theorem C4_cosineSimilarity_contract (a b : List ℝ) (h : a.length = b.length) :
    (-1 ≤ cosineSimilarity a b ∧ cosineSimilarity a b ≤ 1) ∧
    ((Real.sqrt (∑ i ∈ Finset.range a.length, a.getD i 0 * a.getD i 0) = 0 ∨
      Real.sqrt (∑ i ∈ Finset.range a.length, b.getD i 0 * b.getD i 0) = 0) →
        cosineSimilarity a b = 0) ∧
    (¬(Real.sqrt (∑ i ∈ Finset.range a.length, a.getD i 0 * a.getD i 0) = 0 ∨
      Real.sqrt (∑ i ∈ Finset.range a.length, b.getD i 0 * b.getD i 0) = 0) →
        cosineSimilarity a b =
          (∑ i ∈ Finset.range a.length, a.getD i 0 * b.getD i 0) /
            (Real.sqrt (∑ i ∈ Finset.range a.length, a.getD i 0 * a.getD i 0) *
              Real.sqrt (∑ i ∈ Finset.range a.length, b.getD i 0 * b.getD i 0)) ∧
        Real.sqrt (∑ i ∈ Finset.range a.length, a.getD i 0 * a.getD i 0) *
          Real.sqrt (∑ i ∈ Finset.range a.length, b.getD i 0 * b.getD i 0) ≠ 0) ∧
    TextAnalysis.cosineSimilarity a b = some (cosineSimilarity a b) := by
  have hveq := cosineSimilarity_eq_vec a b h
  set aV : Vec a.length := fun i => a.getD (i : ℕ) 0 with haV
  set bV : Vec a.length := fun i => b.getD (i : ℕ) 0 with hbV
  have hsums : ∀ (f g : List ℝ),
      (∑ i ∈ Finset.range a.length, f.getD i 0 * g.getD i 0) =
        ∑ i : Fin a.length, f.getD (i : ℕ) 0 * g.getD (i : ℕ) 0 :=
    fun f g => (Fin.sum_univ_eq_sum_range (fun i => f.getD i 0 * g.getD i 0) a.length).symm
  have hA : (∑ i ∈ Finset.range a.length, a.getD i 0 * a.getD i 0) = sumSq aV := hsums a a
  have hB : (∑ i ∈ Finset.range a.length, b.getD i 0 * b.getD i 0) = sumSq bV := hsums b b
  have hD : (∑ i ∈ Finset.range a.length, a.getD i 0 * b.getD i 0) = dotP aV bV := hsums a b
  refine ⟨hveq ▸ cosineSimilarityV_mem_Icc aV bV, ?_, ?_, ?_⟩
  · intro h0
    rw [hveq]
    unfold cosineSimilarityV
    rw [if_pos]
    rw [hA, hB] at h0
    exact h0
  · intro h0
    rw [hA, hB] at h0 ⊢
    rw [hD]
    constructor
    · rw [hveq]
      unfold cosineSimilarityV
      rw [if_neg h0]
    · push_neg at h0
      exact mul_ne_zero h0.1 h0.2
  · unfold TextAnalysis.cosineSimilarity cosineSimilarity
    have hmin : min a.length b.length = a.length := by omega
    rw [if_pos (le_of_eq h)]
    simp only [hmin]
    congr 1
    by_cases hz : (∑ i ∈ Finset.range a.length, a.getD i 0 * a.getD i 0) = 0 ∨
        (∑ i ∈ Finset.range a.length, b.getD i 0 * b.getD i 0) = 0
    · rw [if_pos hz, if_pos]
      rcases hz with hz | hz <;> rw [hz]
      · exact Or.inl Real.sqrt_zero
      · exact Or.inr Real.sqrt_zero
    · rw [if_neg hz, if_neg]
      push_neg at hz
      push_neg
      have hnn : ∀ (f : List ℝ), 0 ≤ ∑ i ∈ Finset.range a.length, f.getD i 0 * f.getD i 0 :=
        fun f => Finset.sum_nonneg fun i _ => mul_self_nonneg _
      constructor
      · intro hc
        exact hz.1 ((Real.sqrt_eq_zero (hnn a)).mp hc)
      · intro hc
        exact hz.2 ((Real.sqrt_eq_zero (hnn b)).mp hc)

theorem C4_cosineSimilarity_contract_witness :
    ([(1:ℝ), 0]).length = ([(0:ℝ), 1]).length ∧
    (-1 ≤ cosineSimilarity [(1:ℝ), 0] [0, 1] ∧ cosineSimilarity [(1:ℝ), 0] [0, 1] ≤ 1) ∧
    TextAnalysis.cosineSimilarity [(1:ℝ), 0] [0, 1] =
      some (cosineSimilarity [(1:ℝ), 0] [0, 1]) :=
  ⟨rfl, (C4_cosineSimilarity_contract [(1:ℝ), 0] [0, 1] rfl).1,
    (C4_cosineSimilarity_contract [(1:ℝ), 0] [0, 1] rfl).2.2.2⟩

/-- C5: on an empty vector list both engines return a well-formed empty result
(empty cluster map, silhouette 0) without raising. -/
theorem C5_empty_input_graceful {d : ℕ} (k maxIterations : ℕ) (m : DistanceMetric)
    (rands : ℕ → ℝ) (eps : ℝ) (minPts : ℕ) :
    (kMeansClustering ([] : List (Vec d)) k maxIterations m rands).clusters = [] ∧
    (kMeansClustering ([] : List (Vec d)) k maxIterations m rands).silhouetteScore = 0 ∧
    (kMeansClustering ([] : List (Vec d)) k maxIterations m rands).algorithm = "K-means" ∧
    (dbscanClustering ([] : List (Vec d)) eps minPts m).clusters = [] ∧
    (dbscanClustering ([] : List (Vec d)) eps minPts m).silhouetteScore = 0 ∧
    (dbscanClustering ([] : List (Vec d)) eps minPts m).algorithm = "DBSCAN" := by
  refine ⟨?_, ?_, ?_, ?_, ?_, ?_⟩ <;> rfl

/-- C8 counterexample: `cosineSimilarity` accepts vectors of different dimensions and
silently truncates to the common prefix instead of failing: on `[3]` and `[4, 5]` it
returns the plain value 1 (the cosine of the one-dimensional prefixes). -/
theorem C8_counterexample : cosineSimilarity [(3:ℝ)] [4, 5] = 1 := by
  unfold cosineSimilarity
  norm_num [Finset.sum_range_succ]
  rw [show (9:ℝ) = 3 ^ 2 by norm_num, show (16:ℝ) = 4 ^ 2 by norm_num,
    Real.sqrt_sq (by norm_num : (0:ℝ) ≤ 3), Real.sqrt_sq (by norm_num : (0:ℝ) ≤ 4)]
  norm_num

/-- C8 amended: on mismatched dimensions the distance/similarity functions do not
fail fast; route's `cosineSimilarity` behaves as if both vectors were truncated to
the shorter length, and text-analysis `euclideanDistance` ignores the tail of a
longer second vector and produces no real value (JS `NaN`) when the second vector is
shorter. -/
theorem C8_amended_truncation (a b : List ℝ) :
    cosineSimilarity a b =
      cosineSimilarity (a.take (min a.length b.length)) (b.take (min a.length b.length)) ∧
    (a.length ≤ b.length →
      TextAnalysis.euclideanDistance a b =
        TextAnalysis.euclideanDistance a (b.take a.length)) ∧
    (b.length < a.length → TextAnalysis.euclideanDistance a b = none) := by
  have hgetDtake : ∀ (l : List ℝ) (n i : ℕ), i < n → (l.take n).getD i 0 = l.getD i 0 := by
    intro l n i hi
    simp only [List.getD, List.get?_take hi]
  refine ⟨?_, ?_, ?_⟩
  · unfold cosineSimilarity
    have hlen : min (a.take (min a.length b.length)).length
        (b.take (min a.length b.length)).length = min a.length b.length := by
      simp only [List.length_take]
      omega
    simp only [hlen]
    have hsum : ∀ (f g : List ℝ),
        (∑ i ∈ Finset.range (min a.length b.length),
          (f.take (min a.length b.length)).getD i 0 * (g.take (min a.length b.length)).getD i 0) =
        ∑ i ∈ Finset.range (min a.length b.length), f.getD i 0 * g.getD i 0 := by
      intro f g
      apply Finset.sum_congr rfl
      intro i hi
      rw [hgetDtake f _ i (Finset.mem_range.mp hi), hgetDtake g _ i (Finset.mem_range.mp hi)]
    rw [hsum a a, hsum b b, hsum a b]
  · intro hle
    unfold TextAnalysis.euclideanDistance
    have h1 : a.length ≤ (b.take a.length).length := by
      simp only [List.length_take]
      omega
    rw [if_pos hle, if_pos h1]
    congr 1
    congr 1
    apply Finset.sum_congr rfl
    intro i hi
    rw [hgetDtake b _ i (Finset.mem_range.mp hi)]
  · intro hlt
    unfold TextAnalysis.euclideanDistance
    rw [if_neg (by omega)]

theorem C8_amended_truncation_witness :
    (cosineSimilarity [(0:ℝ)] [0, 1] =
      cosineSimilarity ([(0:ℝ)].take (min 1 2)) ([(0:ℝ), 1].take (min 1 2))) ∧
    TextAnalysis.euclideanDistance [(0:ℝ)] [0, 1] =
      TextAnalysis.euclideanDistance [(0:ℝ)] ([(0:ℝ), 1].take 1) ∧
    TextAnalysis.euclideanDistance [(0:ℝ), 0] [0] = none :=
  ⟨(C8_amended_truncation [0] [0, 1]).1,
    (C8_amended_truncation [0] [0, 1]).2.1 (by norm_num),
    (C8_amended_truncation [0, 0] [0]).2.2 (by norm_num)⟩

/-! ### C2: the silhouette scorer matches the spec formula and its bounds -/

/-- Spec-side `a(i)`: average intra-cluster distance, 0 for singletons. -/
noncomputable def specA (m : DistanceMetric) {d : ℕ} (vectors : List (Vec d))
    (c : List ℕ) (p : ℕ) : ℝ :=
  if c.length ≤ 1 then 0
  else ((c.filter (· ≠ p)).map
      (fun q => distV m (vectors.getD p 0) (vectors.getD q 0))).sum / ((c.length : ℝ) - 1)

/-- Spec-side `b(i)`: minimum (in `WithTop ℝ`, `⊤` = no points) over the other
clusters of the average distance from `p` to that cluster. -/
noncomputable def specB (m : DistanceMetric) {d : ℕ} (vectors : List (Vec d))
    (clusters : List (List ℕ)) (cid p : ℕ) : WithTop ℝ :=
  ((clusters.enum.filter (fun c => c.1 ≠ cid)).map (fun c =>
    if c.2.isEmpty then (⊤ : WithTop ℝ)
    else (((c.2.map (fun q => distV m (vectors.getD p 0) (vectors.getD q 0))).sum
      / (c.2.length : ℝ) : ℝ) : WithTop ℝ))).foldr min ⊤

/-- Spec-side per-point silhouette: 0 if `a = b = 0`; `1 - a/b` if `a < b`;
`b/a - 1` otherwise (1 when `b = ⊤`). -/
noncomputable def specPointSil (a : ℝ) (b : WithTop ℝ) : ℝ :=
  if b = ⊤ then 1
  else if a = 0 ∧ b.untop' 0 = 0 then 0
  else if a < b.untop' 0 then 1 - a / b.untop' 0 else b.untop' 0 / a - 1

/-- Spec-side overall silhouette: 0 for fewer than 2 clusters, otherwise the mean
per-point silhouette over all points of all clusters. -/
noncomputable def specSilhouette (m : DistanceMetric) {d : ℕ} (vectors : List (Vec d))
    (clusters : List (List ℕ)) : ℝ :=
  if clusters.length < 2 then 0
  else
    ((clusters.enum.map (fun c => c.2.map (fun p =>
      specPointSil (specA m vectors c.2 p) (specB m vectors clusters c.1 p)))).flatten).sum
    / ((clusters.map List.length).sum : ℝ)

def toWithTop : Option ℝ → WithTop ℝ
  | none => ⊤
  | some x => (x : WithTop ℝ)

theorem toWithTop_optMin (a b : Option ℝ) :
    toWithTop (optMin a b) = min (toWithTop a) (toWithTop b) := by
  rcases a with _ | x <;> rcases b with _ | y <;>
    simp [optMin, toWithTop, min_eq_right le_top, min_eq_left le_top]

theorem foldl_min_withTop (l : List (WithTop ℝ)) (init : WithTop ℝ) :
    l.foldl min init = min init (l.foldr min ⊤) := by
  induction l generalizing init with
  | nil => simp
  | cons x xs ih =>
    simp only [List.foldl_cons, List.foldr_cons]
    rw [ih (min init x), min_assoc]

theorem toWithTop_foldl_optMin (l : List (Option ℝ)) (acc : Option ℝ) :
    toWithTop (l.foldl optMin acc) = (l.map toWithTop).foldl min (toWithTop acc) := by
  induction l generalizing acc with
  | nil => rfl
  | cons x xs ih =>
    simp only [List.foldl_cons, List.map_cons]
    rw [ih, toWithTop_optMin]

theorem specA_eq (m : DistanceMetric) {d : ℕ} (vectors : List (Vec d)) (c : List ℕ)
    (p : ℕ) : specA m vectors c p = intraA m vectors c p := by
  unfold specA intraA
  by_cases h : 1 < c.length
  · rw [if_neg (by omega), if_pos h]
  · rw [if_pos (by omega), if_neg h]

theorem toWithTop_interAvg (m : DistanceMetric) {d : ℕ} (vectors : List (Vec d))
    (c : List ℕ) (p : ℕ) :
    toWithTop (interAvg m vectors c p) =
      (if c.isEmpty then (⊤ : WithTop ℝ)
       else (((c.map (fun q => distV m (vectors.getD p 0) (vectors.getD q 0))).sum
         / (c.length : ℝ) : ℝ) : WithTop ℝ)) := by
  unfold interAvg
  rcases c with _ | ⟨q, rest⟩
  · rfl
  · rw [if_pos (by simp), if_neg (by simp)]
    rfl

theorem specB_eq (m : DistanceMetric) {d : ℕ} (vectors : List (Vec d))
    (clusters : List (List ℕ)) (cid p : ℕ) :
    specB m vectors clusters cid p = toWithTop (interB m vectors clusters cid p) := by
  unfold specB interB
  rw [toWithTop_foldl_optMin, List.map_map]
  have hmap : (clusters.enum.filter (fun c => c.1 ≠ cid)).map
        (toWithTop ∘ fun c => interAvg m vectors c.2 p) =
      (clusters.enum.filter (fun c => c.1 ≠ cid)).map (fun c =>
        if c.2.isEmpty then (⊤ : WithTop ℝ)
        else (((c.2.map (fun q => distV m (vectors.getD p 0) (vectors.getD q 0))).sum
          / (c.2.length : ℝ) : ℝ) : WithTop ℝ)) := by
    apply List.map_congr_left
    intro c _
    exact toWithTop_interAvg m vectors c.2 p
  rw [hmap, foldl_min_withTop]
  simp [toWithTop, top_inf_eq]

theorem specPointSil_toWithTop (a : ℝ) (b : Option ℝ) :
    specPointSil a (toWithTop b) = perPointSilhouette a b := by
  rcases b with _ | bv
  · simp [specPointSil, toWithTop, perPointSilhouette]
  · unfold specPointSil perPointSilhouette toWithTop
    rw [if_neg WithTop.coe_ne_top]
    simp

/-- C2: the silhouette scorer returns 0 for fewer than 2 clusters and otherwise the
spec's mean piecewise per-point value, and the result always lies in `[-1, 1]`.
(The statement is metric-parametric: the route.ts implementation is
`Route.calculateSilhouetteScore = calculateSilhouetteScore .cosine`.) -/
theorem C2_silhouette_contract (m : DistanceMetric) {d : ℕ} (vectors : List (Vec d))
    (clusters : List (List ℕ)) :
    calculateSilhouetteScore m vectors clusters = specSilhouette m vectors clusters ∧
    (clusters.length ≤ 1 → calculateSilhouetteScore m vectors clusters = 0) ∧
    -1 ≤ calculateSilhouetteScore m vectors clusters ∧
    calculateSilhouetteScore m vectors clusters ≤ 1 := by
  have hbounds := calculateSilhouetteScore_mem_Icc m vectors clusters
  refine ⟨?_, ?_, hbounds.1, hbounds.2⟩
  · unfold calculateSilhouetteScore specSilhouette
    by_cases hlen : clusters.length ≤ 1
    · rw [if_pos hlen, if_pos (show clusters.length < 2 by omega)]
    · rw [if_neg hlen, if_neg (show ¬clusters.length < 2 by omega)]
      have hlists : (clusters.enum.map (fun c => c.2.map (fun p =>
          specPointSil (specA m vectors c.2 p) (specB m vectors clusters c.1 p)))) =
          (clusters.enum.map (fun c => c.2.map (fun p =>
            perPointSilhouette (intraA m vectors c.2 p) (interB m vectors clusters c.1 p)))) := by
        apply List.map_congr_left
        intro c _
        apply List.map_congr_left
        intro p _
        rw [specA_eq, specB_eq, specPointSil_toWithTop]
      have hnum : (silhouettePoints m vectors clusters) =
          (clusters.enum.map (fun c => c.2.map (fun p =>
            specPointSil (specA m vectors c.2 p) (specB m vectors clusters c.1 p)))).flatten := by
        unfold silhouettePoints
        rw [hlists]
      have hden : ((silhouettePoints m vectors clusters).length : ℝ) =
          ((clusters.map List.length).sum : ℝ) := by
        unfold silhouettePoints
        rw [List.length_flatten, List.map_map]
        congr 2
        have h1 : clusters.enum.map (List.length ∘ fun c => c.2.map (fun p =>
            perPointSilhouette (intraA m vectors c.2 p) (interB m vectors clusters c.1 p))) =
            clusters.enum.map (fun c => c.2.length) := by
          apply List.map_congr_left
          intro c _
          simp
        rw [h1]
        have h2 : clusters.enum.map (fun c => c.2.length) =
            (clusters.enum.map Prod.snd).map List.length := by
          rw [List.map_map]
          rfl
        rw [h2, List.enum_map_snd]
      simp only
      split
      · rw [← hnum, hden]
      · rename_i hpts
        have h0 : (silhouettePoints m vectors clusters).length = 0 := by omega
        rw [← hnum, List.length_eq_zero.mp h0]
        simp
  · intro h
    unfold calculateSilhouetteScore
    rw [if_pos h]

/-! ### C6 / C10: the algorithm selector -/

/-- Spec `k = clamp(ceil(sqrt(N/2)), 2, 10)`. -/
noncomputable def specK (N : ℕ) : ℕ := (max 2 (min ⌈Real.sqrt ((N : ℝ) / 2)⌉ 10)).toNat

/-- Spec `minPts = clamp(floor(N/10), 2, 4)`. -/
def specMinPts (N : ℕ) : ℕ := max 2 (min (N / 10) 4)

/-- Spec `epsilon = 1.5 × mean pairwise cosine distance` (0.5 with fewer than one
pair), the mean taken over the `n choose 2` unordered index pairs. -/
noncomputable def specEpsilon {d : ℕ} (embeddings : List (Vec d)) : ℝ :=
  1.5 * (if embeddings.length < 2 then 0.5
    else (∑ j ∈ Finset.range embeddings.length, ∑ i ∈ Finset.range j,
        cosineSimilarityDistance (embeddings.getD i 0) (embeddings.getD j 0))
      / (embeddings.length.choose 2 : ℝ))

theorem list_map_sum_eq_range {d : ℕ} (l : List (Vec d)) (f : Vec d → ℝ) :
    (l.map f).sum = ∑ j ∈ Finset.range l.length, f (l.getD j 0) := by
  induction l with
  | nil => simp
  | cons v rest ih =>
    simp only [List.map_cons, List.sum_cons, List.length_cons]
    rw [Finset.sum_range_succ']
    simp only [List.getD_cons_succ, List.getD_cons_zero]
    rw [ih]
    ring

/-- The head-first pair recursion equals the index-pair double sum. -/
theorem pairDistSum_eq {d : ℕ} (l : List (Vec d)) :
    pairDistSum l = ∑ j ∈ Finset.range l.length, ∑ i ∈ Finset.range j,
      cosineSimilarityDistance (l.getD i 0) (l.getD j 0) := by
  induction l with
  | nil => simp [pairDistSum]
  | cons v rest ih =>
    rw [pairDistSum, ih]
    simp only [List.length_cons]
    rw [Finset.sum_range_succ']
    simp only [Finset.range_zero, Finset.sum_empty, add_zero]
    have hinner : ∀ j ∈ Finset.range rest.length, (∑ i ∈ Finset.range (j + 1),
        cosineSimilarityDistance ((v :: rest).getD i 0) ((v :: rest).getD (j + 1) 0)) =
        cosineSimilarityDistance v (rest.getD j 0) +
          ∑ i ∈ Finset.range j, cosineSimilarityDistance (rest.getD i 0) (rest.getD j 0) := by
      intro j _
      rw [Finset.sum_range_succ']
      simp only [List.getD_cons_succ, List.getD_cons_zero]
      ring
    rw [Finset.sum_congr rfl hinner, Finset.sum_add_distrib,
      list_map_sum_eq_range rest (fun w => cosineSimilarityDistance v w)]

theorem code_k_eq_specK (N : ℕ) :
    (min (max 2 ⌈Real.sqrt ((N : ℝ) / 2)⌉) 10).toNat = specK N := by
  unfold specK
  congr 1
  omega

theorem code_minPts_eq_spec (N : ℕ) : max 2 (min 4 (N / 10)) = specMinPts N := by
  unfold specMinPts
  omega

theorem pairCount_pos_iff (n : ℕ) : 0 < n * (n - 1) / 2 ↔ 2 ≤ n := by
  constructor
  · intro h
    by_contra hlt
    push_neg at hlt
    interval_cases n <;> simp_all
  · intro h
    have h2 : 2 * 1 ≤ n * (n - 1) := Nat.mul_le_mul h (by omega)
    omega

theorem code_epsilon_eq_spec {d : ℕ} (embeddings : List (Vec d)) :
    (if 0 < embeddings.length * (embeddings.length - 1) / 2
      then pairDistSum embeddings / ((embeddings.length * (embeddings.length - 1) / 2 : ℕ) : ℝ)
      else 0.5) * 1.5 = specEpsilon embeddings := by
  unfold specEpsilon
  rw [mul_comm]
  congr 1
  by_cases h : embeddings.length < 2
  · rw [if_neg (fun hc => by rw [pairCount_pos_iff] at hc; omega), if_pos h]
  · rw [if_pos ((pairCount_pos_iff _).mpr (le_of_not_lt h)), if_neg h, pairDistSum_eq,
      Nat.choose_two_right]

/-- C6: the selector derives `k = clamp(ceil(sqrt(N/2)),2,10)`,
`epsilon = 1.5 × mean pairwise cosine distance` (0.5 default below one pair),
`minPts = clamp(floor(N/10),2,4)`, runs both engines, and returns the
higher-silhouette result tagged with the winner's name and parameter record. -/
theorem C6_selector_contract {d : ℕ} (embeddings : List (Vec d)) (N : ℕ)
    (rands : ℕ → ℝ) :
    runOptimalClustering embeddings N rands =
      (if (runKMeans embeddings (specK N) rands).silhouetteScore <
          (runDBSCAN embeddings (specEpsilon embeddings) (specMinPts N)).silhouetteScore
       then
        { clusters := (runDBSCAN embeddings (specEpsilon embeddings) (specMinPts N)).clusters
          clusterCoherence :=
            (runDBSCAN embeddings (specEpsilon embeddings) (specMinPts N)).clusterCoherence
          silhouetteScore :=
            (runDBSCAN embeddings (specEpsilon embeddings) (specMinPts N)).silhouetteScore
          iterations := none
          algorithm := "DBSCAN"
          algorithmDetails := .dbscan (specEpsilon embeddings) (specMinPts N)
            (runDBSCAN embeddings (specEpsilon embeddings) (specMinPts N)).clusters.length }
       else
        { clusters := (runKMeans embeddings (specK N) rands).clusters
          clusterCoherence := (runKMeans embeddings (specK N) rands).clusterCoherence
          silhouetteScore := (runKMeans embeddings (specK N) rands).silhouetteScore
          iterations := some (runKMeans embeddings (specK N) rands).iterations
          algorithm := "K-means"
          algorithmDetails := .kmeans (specK N) (runKMeans embeddings (specK N) rands).iterations
            (runKMeans embeddings (specK N) rands).clusters.length }) := by
  simp only [runOptimalClustering]
  rw [code_k_eq_specK, code_minPts_eq_spec, code_epsilon_eq_spec]

/-- C10: the DBSCAN result is returned exactly when its silhouette is strictly
greater; in particular on a tie the K-means result is returned. -/
theorem C10_tie_prefers_kmeans {d : ℕ} (embeddings : List (Vec d)) (N : ℕ)
    (rands : ℕ → ℝ) :
    ((runOptimalClustering embeddings N rands).algorithm = "DBSCAN" ↔
      (runKMeans embeddings (specK N) rands).silhouetteScore <
        (runDBSCAN embeddings (specEpsilon embeddings) (specMinPts N)).silhouetteScore) ∧
    ((runOptimalClustering embeddings N rands).algorithm = "K-means" ↔
      (runDBSCAN embeddings (specEpsilon embeddings) (specMinPts N)).silhouetteScore ≤
        (runKMeans embeddings (specK N) rands).silhouetteScore) := by
  simp only [runOptimalClustering]
  rw [code_k_eq_specK, code_minPts_eq_spec, code_epsilon_eq_spec]
  split
  · rename_i hlt
    exact ⟨iff_of_true rfl hlt,
      iff_of_false (show ¬("DBSCAN" = "K-means") by decide) (not_le.mpr hlt)⟩
  · rename_i hge
    exact ⟨iff_of_false (show ¬("K-means" = "DBSCAN") by decide) hge,
      iff_of_true rfl (not_lt.mp hge)⟩

/-! ### C3: the vectorizer contract -/

theorem list_sum_map_mul_const (v : List ℝ) (f : ℝ → ℝ) (c : ℝ) :
    (v.map (fun x => f x * c)).sum = (v.map f).sum * c := by
  induction v with
  | nil => simp
  | cons x xs ih => simp [ih, add_mul]

/-- Normalization either produces a unit vector or leaves an all-zero vector
untouched. -/
theorem normalizeVector_norm (v : List ℝ) :
    Real.sqrt (((normalizeVector v).map (fun x => x * x)).sum) = 1 ∨
      (normalizeVector v = v ∧ ∀ x ∈ v, x = 0) := by
  have hSnn : 0 ≤ (v.map (fun y => y * y)).sum :=
    List.sum_nonneg (fun x hx => by
      obtain ⟨y, _, rfl⟩ := List.mem_map.mp hx
      exact mul_self_nonneg y)
  unfold normalizeVector
  by_cases h : 0 < Real.sqrt (v.map (fun y => y * y)).sum
  · left
    rw [if_pos h]
    have hSpos : 0 < (v.map (fun y => y * y)).sum := Real.sqrt_pos.mp h
    have hsq : Real.sqrt (v.map (fun y => y * y)).sum * Real.sqrt (v.map (fun y => y * y)).sum
        = (v.map (fun y => y * y)).sum := Real.mul_self_sqrt hSnn
    have hmap : ((v.map (fun x => x / Real.sqrt (v.map (fun y => y * y)).sum)).map
        (fun x => x * x)).sum = (v.map (fun y => y * y)).sum *
          (1 / (Real.sqrt (v.map (fun y => y * y)).sum * Real.sqrt (v.map (fun y => y * y)).sum)) := by
      rw [List.map_map]
      have hfun : ((fun x => x * x) ∘ fun x => x / Real.sqrt (v.map (fun y => y * y)).sum) =
          fun x => (x * x) * (1 / (Real.sqrt (v.map (fun y => y * y)).sum *
            Real.sqrt (v.map (fun y => y * y)).sum)) := by
        funext x
        simp only [Function.comp_apply]
        ring
      rw [hfun, list_sum_map_mul_const v (fun x => x * x)]
    rw [hmap, hsq]
    rw [mul_one_div, div_self hSpos.ne']
    exact Real.sqrt_one
  · right
    rw [if_neg h]
    refine ⟨rfl, ?_⟩
    have hs0 : Real.sqrt (v.map (fun y => y * y)).sum = 0 :=
      le_antisymm (not_lt.mp h) (Real.sqrt_nonneg _)
    have hS0 : (v.map (fun y => y * y)).sum = 0 := by
      rwa [Real.sqrt_eq_zero hSnn] at hs0
    intro x hx
    have := list_sum_eq_zero_forall (v.map (fun y => y * y))
      (fun z hz => by
        obtain ⟨y, _, rfl⟩ := List.mem_map.mp hz
        exact mul_self_nonneg y)
      hS0 (x * x) (List.mem_map_of_mem _ hx)
    exact mul_self_eq_zero.mp this

/-- C3: one vector per document, every vector has dimension 50, and every vector has
L2 norm 1 or is all-zero (left unnormalized exactly when every feature is zero); this
holds for every regex-engine match count. -/
theorem C3_vectorizer_contract (topicMatch : ℕ → String → ℕ) (documents : List String) :
    (generateSemanticEmbeddings topicMatch documents).length = documents.length ∧
    (∀ v ∈ generateSemanticEmbeddings topicMatch documents, v.length = 50) ∧
    (∀ v ∈ generateSemanticEmbeddings topicMatch documents,
      Real.sqrt ((v.map (fun x => x * x)).sum) = 1 ∨ ∀ x ∈ v, x = 0) := by
  refine ⟨by simp [generateSemanticEmbeddings], ?_, ?_⟩
  · intro v hv
    obtain ⟨doc, _, rfl⟩ := List.mem_map.mp hv
    have hraw : (rawFeatureVector topicMatch doc).length = 50 := by
      simp [rawFeatureVector, docStats, semanticRelationships]
    unfold normalizeVector
    split
    · simpa using hraw
    · exact hraw
  · intro v hv
    obtain ⟨doc, _, rfl⟩ := List.mem_map.mp hv
    rcases normalizeVector_norm (rawFeatureVector topicMatch doc) with h | ⟨heq, hzero⟩
    · exact Or.inl h
    · right
      rw [heq]
      exact hzero

theorem C3_vectorizer_contract_witness :
    (generateSemanticEmbeddings (fun _ _ => 0) [""]).length = 1 ∧
    (normalizeVector (rawFeatureVector (fun _ _ => 0) "")).length = 50 ∧
    (Real.sqrt (((normalizeVector (rawFeatureVector (fun _ _ => 0) "")).map
        (fun x => x * x)).sum) = 1 ∨
      ∀ x ∈ normalizeVector (rawFeatureVector (fun _ _ => 0) ""), x = 0) :=
  ⟨(C3_vectorizer_contract (fun _ _ => 0) [""]).1,
   (C3_vectorizer_contract (fun _ _ => 0) [""]).2.1 _ (List.mem_cons_self _ _),
   (C3_vectorizer_contract (fun _ _ => 0) [""]).2.2 _ (List.mem_cons_self _ _)⟩

/-! ### C7: empty clusters in the returned map -/

/-- `updateCentroids` never changes the number of centroids. -/
theorem updateCentroids_length {d : ℕ} (vectors : List (Vec d)) (centroids : List (Vec d))
    (clusters : List (List ℕ)) (k : ℕ) :
    (updateCentroids vectors centroids clusters k).length = centroids.length := by
  unfold updateCentroids
  generalize List.range k = l
  induction l generalizing centroids with
  | nil => rfl
  | cons i rest ih =>
    rw [List.foldl_cons]
    split
    · exact ih centroids
    · rw [ih]
      exact List.length_set ..

/-- Evaluation pieces for the duplicate-unit-vector run `[![1,0], ![1,0]]`. -/
theorem cosineSimilarityV_unit_self : cosineSimilarityV (d := 2) ![1, 0] ![1, 0] = 1 := by
  unfold cosineSimilarityV sumSq dotP
  rw [if_neg]
  · simp [Fin.sum_univ_two]
  · simp [Fin.sum_univ_two]

theorem distV_unit_self : distV .cosine (![1, 0] : Vec 2) ![1, 0] = 0 := by
  simp [distV, cosineSimilarityV_unit_self]

theorem minDist_unit_self : minDistToCentroids .cosine (![1, 0] : Vec 2) [![1, 0]] = 0 := by
  unfold minDistToCentroids
  simp [distV_unit_self]

/-- With two identical vectors the roulette total is 0, so seeding breaks with a
single centroid (`centroids.length = 1 < k = 2`). -/
theorem kmeansSeed_two_identical :
    kmeansSeedLoop .cosine [(![1, 0] : Vec 2), ![1, 0]] 2 (fun _ => 0) 2 [![1, 0]]
      ({0} : Finset ℕ) = ([![1, 0]], ({0} : Finset ℕ)) := by
  rw [kmeansSeedLoop]
  rw [if_pos (by norm_num)]
  have hsum : ((((List.range ([(![1, 0] : Vec 2), ![1, 0]]).length).filter
        (fun i => i ∉ ({0} : Finset ℕ)))).map (fun i =>
      minDistToCentroids DistanceMetric.cosine (([(![1, 0] : Vec 2), ![1, 0]]).getD i 0) [![1, 0]] *
      minDistToCentroids DistanceMetric.cosine (([(![1, 0] : Vec 2), ![1, 0]]).getD i 0)
        [![1, 0]])).sum = 0 := by
    have hf : (((List.range ([(![1, 0] : Vec 2), ![1, 0]]).length).filter
        (fun i => i ∉ ({0} : Finset ℕ)))) = [1] := by decide
    rw [hf]
    simp [minDist_unit_self]
  rw [if_pos hsum]

/-- With a single centroid every point is assigned to cluster 0, so the `k = 2`
assignment is `{0: [0,1], 1: []}` whatever the centroid is. -/
theorem assign_two_identical (c : Vec 2) :
    assignClusters .cosine [![1, 0], ![1, 0]] [c] 2 = [[0, 1], []] := rfl

theorem silhouettePoints_two_identical :
    silhouettePoints .cosine [(![1, 0] : Vec 2), ![1, 0]] [[0, 1], []] = [1, 1] := rfl

theorem silhouette_two_identical :
    calculateSilhouetteScore .cosine [(![1, 0] : Vec 2), ![1, 0]] [[0, 1], []] = 1 := by
  unfold calculateSilhouetteScore
  rw [if_neg (by norm_num), silhouettePoints_two_identical]
  norm_num

/-- The iteration loop is stuck at the `{0: [0,1], 1: []}` snapshot. -/
theorem kmeansIterLoop_two_identical : ∀ (fuel : ℕ) (st : KMeansIterState 2),
    st.centroids.length = 1 → st.bestClusters = [[0, 1], []] → st.bestSilhouette = 1 →
    (kmeansIterLoop [(![1, 0] : Vec 2), ![1, 0]] 2 fuel st).bestClusters = [[0, 1], []] := by
  intro fuel
  induction fuel with
  | zero => intro st _ hb _; exact hb
  | succ fuel ih =>
    intro st hc hb hs
    obtain ⟨c, hcen⟩ : ∃ c, st.centroids = [c] := by
      rcases hlc : st.centroids with _ | ⟨c, rest⟩
      · rw [hlc] at hc; simp at hc
      · rw [hlc] at hc
        simp at hc
        refine ⟨c, ?_⟩
        rw [hc]
    rw [kmeansIterLoop, hcen, assign_two_identical c, silhouette_two_identical]
    rw [if_neg (by rw [hs]; exact lt_irrefl 1)]
    apply ih
    · simp [updateCentroids_length, hcen]
    · exact hb
    · exact hs

/-- C7 counterexample: on the two identical unit vectors `[1,0]`, `runKMeans` of
route.ts with `k = 2` (and any of its `Math.random()` draws equal to 0) returns the
cluster map `{0: [0,1], 1: []}` — cluster id 1 is present and maps to the empty
list, so the route engine does not drop empty clusters. -/
theorem C7_counterexample :
    (runKMeans (d := 2) [![1, 0], ![1, 0]] 2 (fun _ => 0)).clusters = [[0, 1], []] ∧
    [] ∈ (runKMeans (d := 2) [![1, 0], ![1, 0]] 2 (fun _ => 0)).clusters := by
  have hmain : (runKMeans (d := 2) [![1, 0], ![1, 0]] 2 (fun _ => 0)).clusters
      = [[0, 1], []] := by
    have hfirst : ((⌊(fun _ : ℕ => (0 : ℝ)) 0 *
        (([(![1, 0] : Vec 2), ![1, 0]]).length : ℝ)⌋).toNat) = 0 := by norm_num
    have hget0 : ([(![1, 0] : Vec 2), ![1, 0]]).getD 0 0 = ![1, 0] := rfl
    simp only [runKMeans, hfirst, hget0]
    rw [if_neg (by norm_num)]
    rw [kmeansSeed_two_identical]
    show (kmeansIterLoop [(![1, 0] : Vec 2), ![1, 0]] 2 (19 + 1)
      { centroids := [![1, 0]], bestClusters := [], bestSilhouette := -1,
        iterations := 0 }).bestClusters = [[0, 1], []]
    rw [kmeansIterLoop]
    simp only [assign_two_identical, silhouette_two_identical]
    rw [if_pos (by norm_num)]
    apply kmeansIterLoop_two_identical
    · rw [updateCentroids_length]
      rfl
    · rfl
    · rfl
  refine ⟨hmain, ?_⟩
  rw [hmain]
  exact List.mem_cons_of_mem _ (List.mem_cons_self _ _)

/-- C7 amended: the utils engine (`kMeansClustering`) deletes empty clusters before
returning, so every cluster id in its result maps to a nonempty index list; the
route.ts `runKMeans` has no such pass and can return empty clusters
(see the counterexample). -/
theorem C7_amended_utils_drops_empty {d : ℕ} (vectors : List (Vec d))
    (k maxIterations : ℕ) (m : DistanceMetric) (rands : ℕ → ℝ) :
    ((kMeansClustering vectors k maxIterations m rands).clusters.all
      (fun c => !c.2.isEmpty)) = true := by
  unfold kMeansClustering
  split
  · rfl
  · simp only [List.all_eq_true]
    intro c hc
    have h2 := (List.mem_filter.mp hc).2
    simp only [decide_eq_true_eq] at h2
    cases c2 : c.2 with
    | nil => exact absurd (by rw [c2]; rfl) h2
    | cons x xs => rfl


theorem nearestCentroidAux_lt (m : DistanceMetric) {d : ℕ} (x : Vec d) :
    ∀ (cs : List (Vec d)) (j best : ℕ) (md : ℝ) (B : ℕ),
    best < B → j + cs.length ≤ B → nearestCentroidAux m x cs j best md < B := by
  intro cs
  induction cs with
  | nil => intro j best md B hb _; exact hb
  | cons c rest ih =>
    intro j best md B hb hj
    rw [nearestCentroidAux]
    split
    · exact ih (j + 1) j _ B (by simp at hj; omega) (by simp at hj; omega)
    · exact ih (j + 1) best _ B hb (by simp at hj; omega)

theorem nearestCentroid_lt (m : DistanceMetric) {d : ℕ} (x : Vec d)
    (centroids : List (Vec d)) (k : ℕ) (hk : 0 < k) (hlen : centroids.length ≤ k) :
    nearestCentroid m x centroids < k := by
  unfold nearestCentroid
  rcases centroids with _ | ⟨c, rest⟩
  · exact hk
  · exact nearestCentroidAux_lt m x rest 1 0 _ k hk (by simp at hlen; omega)

theorem flatten_set_push (clusters : List (List ℕ)) :
    ∀ (b : ℕ), b < clusters.length → ∀ (i : ℕ),
    ((clusters.set b ((clusters.getD b []) ++ [i])).flatten).Perm (clusters.flatten ++ [i]) := by
  induction clusters with
  | nil => intro b hb i; exact absurd hb (by simp)
  | cons c rest ih =>
    intro b hb i
    cases b with
    | zero =>
      simp only [List.set_cons_zero, List.getD_cons_zero, List.flatten_cons]
      rw [List.append_assoc, List.append_assoc]
      exact List.Perm.append_left c List.perm_append_comm
    | succ b' =>
      simp only [List.set_cons_succ, List.getD_cons_succ, List.flatten_cons]
      have h := ih b' (by simp at hb; omega) i
      have h2 := h.append_left c
      rw [← List.append_assoc] at h2
      exact h2

theorem flatten_replicate_nil (k : ℕ) : (List.replicate k ([] : List ℕ)).flatten = [] := by
  induction k with
  | zero => rfl
  | succ k ih => simp [List.replicate_succ, ih]

theorem assignClusters_perm (m : DistanceMetric) {d : ℕ} (vectors : List (Vec d))
    (centroids : List (Vec d)) (k : ℕ) (hk : 0 < k) (hc : centroids.length ≤ k) :
    ((assignClusters m vectors centroids k).flatten).Perm (List.range vectors.length) := by
  unfold assignClusters
  suffices h : ∀ (l : List ℕ) (cl : List (List ℕ)), cl.length = k →
      ((l.foldl (fun clusters i =>
        clusters.set (nearestCentroid m (vectors.getD i 0) centroids)
          (clusters.getD (nearestCentroid m (vectors.getD i 0) centroids) [] ++ [i])) cl).flatten).Perm
        (cl.flatten ++ l) by
    have h2 := h (List.range vectors.length) (List.replicate k []) (by simp)
    rw [flatten_replicate_nil, List.nil_append] at h2
    exact h2
  intro l
  induction l with
  | nil => intro cl _; simp
  | cons i rest ih =>
    intro cl hcl
    rw [List.foldl_cons]
    have hb : nearestCentroid m (vectors.getD i 0) centroids < k :=
      nearestCentroid_lt m (vectors.getD i 0) centroids k hk hc
    have hstep := flatten_set_push cl (nearestCentroid m (vectors.getD i 0) centroids)
      (by rw [hcl]; exact hb) i
    have hrec := ih (cl.set (nearestCentroid m (vectors.getD i 0) centroids)
      ((cl.getD (nearestCentroid m (vectors.getD i 0) centroids) []) ++ [i]))
      (by rw [List.length_set]; exact hcl)
    have hfinal := hrec.trans (hstep.append_right rest)
    rw [List.append_assoc] at hfinal
    simpa using hfinal


theorem kmeansSeedLoop_length_le (m : DistanceMetric) {d : ℕ} (vectors : List (Vec d))
    (k : ℕ) (rands : ℕ → ℝ) :
    ∀ (fuel : ℕ) (centroids : List (Vec d)) (used : Finset ℕ),
    ((kmeansSeedLoop m vectors k rands fuel centroids used).1).length ≤
      max centroids.length k := by
  intro fuel
  induction fuel with
  | zero => intro c u; exact le_max_left ..
  | succ fuel ih =>
    intro c u
    simp only [kmeansSeedLoop]
    split
    · split
      · exact le_max_left ..
      · split
        · exact le_max_left ..
        · rename_i j heq
          have h := ih (c ++ [vectors.getD j 0]) (insert j u)
          simp only [List.length_append, List.length_cons, List.length_nil] at h ⊢
          omega
    · exact le_max_left ..

theorem kmeansIterLoop_perm {d : ℕ} (vectors : List (Vec d)) (k : ℕ) (hk : 0 < k) :
    ∀ (fuel : ℕ) (st : KMeansIterState d), st.centroids.length ≤ k →
    (st.bestClusters.flatten).Perm (List.range vectors.length) →
    (((kmeansIterLoop vectors k fuel st).bestClusters).flatten).Perm
      (List.range vectors.length) := by
  intro fuel
  induction fuel with
  | zero => intro st _ hb; exact hb
  | succ fuel ih =>
    intro st hc hb
    rw [kmeansIterLoop]
    split
    · apply ih
      · show (updateCentroids vectors st.centroids
          (assignClusters .cosine vectors st.centroids k) k).length ≤ k
        rw [updateCentroids_length]
        exact hc
      · exact assignClusters_perm .cosine vectors st.centroids k hk hc
    · apply ih
      · show (updateCentroids vectors st.centroids
          (assignClusters .cosine vectors st.centroids k) k).length ≤ k
        rw [updateCentroids_length]
        exact hc
      · exact hb

/-- Core of the exactly-once argument, stated on the clamped `K` directly. -/
theorem runKMeans_core_perm {d : ℕ} (vectors : List (Vec d)) (K : ℕ) (hK : 0 < K)
    (rands : ℕ → ℝ) (mi F : ℕ) :
    (((kmeansIterLoop vectors K (mi + 1)
      { centroids := (kmeansSeedLoop .cosine vectors K rands K
          [vectors.getD F 0] ({F} : Finset ℕ)).1,
        bestClusters := [], bestSilhouette := -1, iterations := 0 }).bestClusters).flatten).Perm
      (List.range vectors.length) := by
  have hseedlen : ((kmeansSeedLoop .cosine vectors K rands K
      [vectors.getD F 0] ({F} : Finset ℕ)).1).length ≤ K := by
    have h := kmeansSeedLoop_length_le .cosine vectors K rands K
      [vectors.getD F 0] ({F} : Finset ℕ)
    simp only [List.length_cons, List.length_nil] at h
    omega
  rw [kmeansIterLoop]
  rw [if_pos ?hpos]
  case hpos =>
    show (-1 : ℝ) < _
    exact calculateSilhouetteScore_gt_neg_one .cosine vectors _
  apply kmeansIterLoop_perm vectors _ hK
  · show (updateCentroids vectors _ _ _).length ≤ _
    rw [updateCentroids_length]
    exact hseedlen
  · exact assignClusters_perm .cosine vectors _ _ hK hseedlen

/-- Every run of route.ts `runKMeans` (any random draws) returns a cluster map whose
flattened index lists are a permutation of `0 .. n-1`: each document appears exactly
once.  Needs at least one vector, a positive `k` and at least one iteration. -/
theorem runKMeans_exactly_once {d : ℕ} (vectors : List (Vec d)) (k : ℕ) (rands : ℕ → ℝ)
    (maxIterations : ℕ) (hn : 0 < vectors.length) (hk : 0 < k) (hiter : 0 < maxIterations) :
    (((runKMeans vectors k rands maxIterations).clusters).flatten).Perm
      (List.range vectors.length) := by
  obtain ⟨mi, rfl⟩ : ∃ mi, maxIterations = mi + 1 := ⟨maxIterations - 1, by omega⟩
  simp only [runKMeans]
  exact runKMeans_core_perm vectors (if vectors.length < k then vectors.length else k)
    (by split <;> omega) rands mi (⌊rands 0 * (vectors.length : ℝ)⌋).toNat

theorem foldNoise_covers (noise : List ℕ) (clusters : List (List ℕ)) :
    (∀ x ∈ noise, x ∈ (foldNoise noise clusters).flatten) ∧
    (∀ x ∈ clusters.flatten, x ∈ (foldNoise noise clusters).flatten) := by
  unfold foldNoise
  split
  · rename_i h0
    constructor
    · intro x hx
      rw [List.length_eq_zero.mp h0] at hx
      cases hx
    · intro x hx; exact hx
  · split
    · constructor
      · intro x hx
        rw [List.flatten_append]
        apply List.mem_append_right
        exact List.mem_flatten.mpr ⟨[x], List.mem_map_of_mem _ hx, List.mem_singleton_self x⟩
      · intro x hx
        rw [List.flatten_append]
        exact List.mem_append_left _ hx
    · constructor
      · intro x hx
        rw [List.flatten_append]
        apply List.mem_append_right
        simpa using hx
      · intro x hx
        rw [List.flatten_append]
        exact List.mem_append_left _ hx

/-- Every run of route.ts `runDBSCAN` covers every document index: no index is lost
(after noise folding). -/
theorem runDBSCAN_covers {d : ℕ} (vectors : List (Vec d)) (eps : ℝ) (minPts : ℕ) :
    ∀ i < vectors.length, i ∈ ((runDBSCAN vectors eps minPts).clusters).flatten := by
  intro i hi
  have hclusters : (runDBSCAN vectors eps minPts).clusters =
      foldNoise (dbscanMain .cosine vectors eps minPts (List.range vectors.length) ∅ [] []).1
        (dbscanMain .cosine vectors eps minPts (List.range vectors.length) ∅ [] []).2 := rfl
  rw [hclusters]
  obtain ⟨hpend, _, _, _⟩ := dbscanMain_complete .cosine vectors eps minPts
    (List.range vectors.length) ∅ [] [] (by intro q hq; cases hq)
  rcases hpend i (List.mem_range.mpr hi) with h | h
  · exact (foldNoise_covers _ _).1 i h
  · exact (foldNoise_covers _ _).2 i h

/-! ### C1 counterexample: DBSCAN duplicates a border point that was first marked noise -/

/-- Three unit vectors: the middle one is close (cosine distance ≤ 1/2 = the default
epsilon) to both others, which are far from each other. -/
noncomputable def C1vecs : List (Vec 2) := [![1, 0], ![3/5, 4/5], ![0, 1]]

theorem distV_cosine_unit {d : ℕ} (a b : Vec d) (ha : sumSq a = 1) (hb : sumSq b = 1) :
    distV .cosine a b = 1 - dotP a b := by
  show 1 - cosineSimilarityV a b = _
  unfold cosineSimilarityV
  rw [ha, hb, Real.sqrt_one]
  rw [if_neg (by norm_num)]
  norm_num

theorem C1_sumSq0 : sumSq (![1, 0] : Vec 2) = 1 := by
  norm_num [sumSq, Fin.sum_univ_two]

theorem C1_sumSq1 : sumSq (![3/5, 4/5] : Vec 2) = 1 := by
  norm_num [sumSq, Fin.sum_univ_two]

theorem C1_sumSq2 : sumSq (![0, 1] : Vec 2) = 1 := by
  norm_num [sumSq, Fin.sum_univ_two]

theorem C1_N0 : getNeighbors .cosine C1vecs (1/2) 0 = [0, 1] := by
  have h0 : C1vecs.getD 0 0 = ![1, 0] := rfl
  have h1 : C1vecs.getD 1 0 = ![3/5, 4/5] := rfl
  have h2 : C1vecs.getD 2 0 = ![0, 1] := rfl
  unfold getNeighbors
  rw [show List.range C1vecs.length = [0, 1, 2] from rfl]
  simp only [List.filter_cons, List.filter_nil, decide_eq_true_eq]
  rw [h0, h1, h2]
  rw [distV_cosine_unit _ _ C1_sumSq0 C1_sumSq0, distV_cosine_unit _ _ C1_sumSq0 C1_sumSq1,
    distV_cosine_unit _ _ C1_sumSq0 C1_sumSq2]
  rw [show dotP (![1, 0] : Vec 2) ![1, 0] = 1 by norm_num [dotP, Fin.sum_univ_two]]
  rw [show dotP (![1, 0] : Vec 2) ![3/5, 4/5] = 3/5 by norm_num [dotP, Fin.sum_univ_two]]
  rw [show dotP (![1, 0] : Vec 2) ![0, 1] = 0 by norm_num [dotP, Fin.sum_univ_two]]
  norm_num

theorem C1_N1 : getNeighbors .cosine C1vecs (1/2) 1 = [0, 1, 2] := by
  have h0 : C1vecs.getD 0 0 = ![1, 0] := rfl
  have h1 : C1vecs.getD 1 0 = ![3/5, 4/5] := rfl
  have h2 : C1vecs.getD 2 0 = ![0, 1] := rfl
  unfold getNeighbors
  rw [show List.range C1vecs.length = [0, 1, 2] from rfl]
  simp only [List.filter_cons, List.filter_nil, decide_eq_true_eq]
  rw [h0, h1, h2]
  rw [distV_cosine_unit _ _ C1_sumSq1 C1_sumSq0, distV_cosine_unit _ _ C1_sumSq1 C1_sumSq1,
    distV_cosine_unit _ _ C1_sumSq1 C1_sumSq2]
  rw [show dotP (![3/5, 4/5] : Vec 2) ![1, 0] = 3/5 by norm_num [dotP, Fin.sum_univ_two]]
  rw [show dotP (![3/5, 4/5] : Vec 2) ![3/5, 4/5] = 1 by norm_num [dotP, Fin.sum_univ_two]]
  rw [show dotP (![3/5, 4/5] : Vec 2) ![0, 1] = 4/5 by norm_num [dotP, Fin.sum_univ_two]]
  norm_num

theorem C1_N2 : getNeighbors .cosine C1vecs (1/2) 2 = [1, 2] := by
  have h0 : C1vecs.getD 0 0 = ![1, 0] := rfl
  have h1 : C1vecs.getD 1 0 = ![3/5, 4/5] := rfl
  have h2 : C1vecs.getD 2 0 = ![0, 1] := rfl
  unfold getNeighbors
  rw [show List.range C1vecs.length = [0, 1, 2] from rfl]
  simp only [List.filter_cons, List.filter_nil, decide_eq_true_eq]
  rw [h0, h1, h2]
  rw [distV_cosine_unit _ _ C1_sumSq2 C1_sumSq0, distV_cosine_unit _ _ C1_sumSq2 C1_sumSq1,
    distV_cosine_unit _ _ C1_sumSq2 C1_sumSq2]
  rw [show dotP (![0, 1] : Vec 2) ![1, 0] = 0 by norm_num [dotP, Fin.sum_univ_two]]
  rw [show dotP (![0, 1] : Vec 2) ![3/5, 4/5] = 4/5 by norm_num [dotP, Fin.sum_univ_two]]
  rw [show dotP (![0, 1] : Vec 2) ![0, 1] = 1 by norm_num [dotP, Fin.sum_univ_two]]
  norm_num

/-- The expansion starting from core point 1 walks its queue `[0,1,2]` and pushes the
already-noise-marked point 0 into the cluster (nothing removes it from the noise
list). -/
theorem C1_expand (v : Finset ℕ) (h1 : 1 ∈ v) :
    dbscanExpand .cosine C1vecs (1/2) 3 [] 3 [0, 1, 2] 0 v [1] =
      (insert 2 (insert 1 (insert 0 v)), [1, 0, 2]) := by
  show dbscanExpand .cosine C1vecs (1/2) 3 [] (2+1) [0, 1, 2] 0 v [1] = _
  rw [dbscanExpand]
  rw [if_pos (show 0 < ([0, 1, 2] : List ℕ).length by decide)]
  rw [show ([0, 1, 2] : List ℕ).getD 0 0 = 0 from rfl]
  rw [C1_N0]
  rw [if_neg (show ¬((0:ℕ) ∉ v ∧ 3 ≤ ([0, 1] : List ℕ).length) from
    fun hc => absurd hc.2 (by decide))]
  rw [if_neg (show ¬((0:ℕ) ∈ ([] : List (List ℕ)).flatten ∨ (0:ℕ) ∈ [1]) by decide)]
  show dbscanExpand .cosine C1vecs (1/2) 3 [] (1+1) [0, 1, 2] (0+1) (insert 0 v)
    ([1] ++ [0]) = _
  rw [dbscanExpand]
  rw [if_pos (show 0+1 < ([0, 1, 2] : List ℕ).length by decide)]
  rw [show ([0, 1, 2] : List ℕ).getD (0+1) 0 = 1 from rfl]
  rw [if_neg (show ¬((1:ℕ) ∉ insert 0 v ∧
      3 ≤ (getNeighbors .cosine C1vecs (1/2) 1).length) from
    fun hc => absurd (Finset.mem_insert_of_mem h1) hc.1)]
  rw [if_pos (show (1:ℕ) ∈ ([] : List (List ℕ)).flatten ∨ (1:ℕ) ∈ [1] ++ [0] by decide)]
  show dbscanExpand .cosine C1vecs (1/2) 3 [] (0+1) [0, 1, 2] (0+1+1) (insert 1 (insert 0 v))
    ([1] ++ [0]) = _
  rw [dbscanExpand]
  rw [if_pos (show 0+1+1 < ([0, 1, 2] : List ℕ).length by decide)]
  rw [show ([0, 1, 2] : List ℕ).getD (0+1+1) 0 = 2 from rfl]
  rw [C1_N2]
  rw [if_neg (show ¬((2:ℕ) ∉ insert 1 (insert 0 v) ∧ 3 ≤ ([1, 2] : List ℕ).length) from
    fun hc => absurd hc.2 (by decide))]
  rw [if_neg (show ¬((2:ℕ) ∈ ([] : List (List ℕ)).flatten ∨ (2:ℕ) ∈ [1] ++ [0]) by decide)]
  rw [dbscanExpand]
  rfl

/-- The full DBSCAN main loop on the three vectors: point 0 lands in the noise list
AND in the cluster grown from point 1. -/
theorem C1_main :
    dbscanMain .cosine C1vecs (1/2) 3 [0, 1, 2] ∅ [] [] = ([0], [[1, 0, 2]]) := by
  rw [dbscanMain]
  rw [if_neg (show (0:ℕ) ∉ (∅ : Finset ℕ) by decide)]
  rw [C1_N0]
  rw [if_pos (show ([0, 1] : List ℕ).length < 3 by decide)]
  rw [dbscanMain]
  rw [if_neg (show (1:ℕ) ∉ insert 0 (∅ : Finset ℕ) by decide)]
  rw [C1_N1]
  rw [if_neg (show ¬(([0, 1, 2] : List ℕ).length < 3) by decide)]
  rw [show C1vecs.length = 3 from rfl]
  rw [C1_expand (insert 1 (insert 0 ∅)) (Finset.mem_insert_self 1 _)]
  show dbscanMain .cosine C1vecs (1/2) 3 [2]
    (insert 2 (insert 1 (insert 0 (insert 1 (insert 0 ∅))))) [0] [[1, 0, 2]] = _
  rw [dbscanMain]
  rw [if_pos (show (2:ℕ) ∈ insert 2 (insert 1 (insert 0 (insert 1 (insert 0 (∅ : Finset ℕ)))))
    by decide)]
  rw [dbscanMain]

/-- C1 counterexample: `runDBSCAN` on the three vectors of `C1vecs` with the default
DBSCAN parameters (epsilon 1/2, minPoints 3) returns the cluster map
`{0: [1,0,2], 1: [0]}` — document 0 appears twice (once as a border point of the
cluster, once as a folded-back noise point), so the flattened index list is NOT a
permutation of `0..N-1`. -/
theorem C1_counterexample :
    (runDBSCAN C1vecs (1/2) 3).clusters = [[1, 0, 2], [0]] ∧
    ¬ ((((runDBSCAN C1vecs (1/2) 3).clusters).flatten).Perm
        (List.range C1vecs.length)) := by
  have hc : (runDBSCAN C1vecs (1/2) 3).clusters = [[1, 0, 2], [0]] := by
    show foldNoise
      (dbscanMain .cosine C1vecs (1/2) 3 (List.range C1vecs.length) ∅ [] []).1
      (dbscanMain .cosine C1vecs (1/2) 3 (List.range C1vecs.length) ∅ [] []).2 = _
    rw [show List.range C1vecs.length = [0, 1, 2] from rfl]
    rw [C1_main]
    rfl
  refine ⟨hc, ?_⟩
  rw [hc]
  rw [show List.range C1vecs.length = [0, 1, 2] from rfl]
  decide

/-- C1 amended: the K-means engine of route.ts does satisfy the exactly-once
partition property (given a nonempty input, a positive `k` and at least one
iteration), and the DBSCAN engine never LOSES a document — every index still appears
in the folded cluster map at least once (but possibly twice, see the
counterexample). -/
theorem C1_amended {d : ℕ} (vectors : List (Vec d)) (k : ℕ) (rands : ℕ → ℝ)
    (maxIterations : ℕ) (eps : ℝ) (minPts : ℕ)
    (hn : 0 < vectors.length) (hk : 0 < k) (hiter : 0 < maxIterations) :
    ((((runKMeans vectors k rands maxIterations).clusters).flatten).Perm
      (List.range vectors.length)) ∧
    (∀ i < vectors.length, i ∈ ((runDBSCAN vectors eps minPts).clusters).flatten) :=
  ⟨runKMeans_exactly_once vectors k rands maxIterations hn hk hiter,
   runDBSCAN_covers vectors eps minPts⟩

theorem C1_amended_witness :
    0 < ([![(1:ℝ)]] : List (Vec 1)).length ∧
    (((((runKMeans ([![(1:ℝ)]] : List (Vec 1)) 1 (fun _ => 0) 1).clusters).flatten).Perm
        (List.range ([![(1:ℝ)]] : List (Vec 1)).length)) ∧
      (∀ i < ([![(1:ℝ)]] : List (Vec 1)).length,
        i ∈ ((runDBSCAN ([![(1:ℝ)]] : List (Vec 1)) (1/2) 3).clusters).flatten)) :=
  ⟨by simp, C1_amended [![(1:ℝ)]] 1 (fun _ => 0) 1 (1/2) 3 (by simp) (by omega) (by omega)⟩

/-! ### C9: label uniqueness after the deduplication pass -/

/-- A string with no opening parenthesis (every generated base label is such). -/
def noParen (s : String) : Prop := '(' ∉ s.data

instance (s : String) : Decidable (noParen s) :=
  inferInstanceAs (Decidable ('(' ∉ s.data))

/-- A string all of whose characters are JS word characters. -/
def wordlike (s : String) : Prop := ∀ c ∈ s.data, jsIsWordChar c = true

theorem noParen_of_wordlike {s : String} (h : wordlike s) : noParen s := by
  intro hc
  have := h _ hc
  exact absurd this (by decide)

theorem noParen_append {s t : String} (hs : noParen s) (ht : noParen t) :
    noParen (s ++ t) := by
  intro hc
  rw [String.data_append] at hc
  rcases List.mem_append.mp hc with h | h
  exacts [hs h, ht h]

theorem noParen_intercalate_go (s : String) (hs : noParen s) :
    ∀ (as : List String) (acc : String), noParen acc → (∀ a ∈ as, noParen a) →
    noParen (String.intercalate.go acc s as) := by
  intro as
  induction as with
  | nil =>
    intro acc hacc _
    rw [String.intercalate.go]
    exact hacc
  | cons a as ih =>
    intro acc hacc has
    rw [String.intercalate.go]
    exact ih _ (noParen_append (noParen_append hacc hs) (has a (.head _)))
      (fun x hx => has x (.tail _ hx))

theorem noParen_intercalate {L : List String} (h : ∀ a ∈ L, noParen a) :
    noParen (String.intercalate ", " L) := by
  cases L with
  | nil =>
    rw [String.intercalate]
    decide
  | cons a as =>
    rw [String.intercalate]
    exact noParen_intercalate_go ", " (by decide) as a (h a (.head _))
      (fun x hx => h x (.tail _ hx))

/-- Every element of every fragment of `splitOnP` comes from the original list and
fails the split predicate. -/
theorem splitOnP_mem_mem {α : Type} (p : α → Bool) :
    ∀ (l : List α) (f : List α), f ∈ l.splitOnP p → ∀ c ∈ f, c ∈ l ∧ p c = false := by
  intro l
  induction l with
  | nil =>
    intro f hf c hc
    rw [List.splitOnP_nil] at hf
    rcases List.mem_singleton.mp hf with rfl
    exact absurd hc (List.not_mem_nil c)
  | cons a l ih =>
    intro f hf c hc
    rw [List.splitOnP_cons] at hf
    by_cases hpa : p a = true
    · rw [if_pos hpa] at hf
      rcases List.mem_cons.mp hf with rfl | hf
      · exact absurd hc (List.not_mem_nil c)
      · obtain ⟨hcl, hpc⟩ := ih f hf c hc
        exact ⟨List.mem_cons_of_mem _ hcl, hpc⟩
    · rw [if_neg hpa] at hf
      have hfa : p a = false := by
        revert hpa
        cases p a <;> simp
      cases hsp : l.splitOnP p with
      | nil =>
        rw [hsp, List.modifyHead_nil] at hf
        exact absurd hf (List.not_mem_nil f)
      | cons hd tl =>
        rw [hsp, List.modifyHead_cons] at hf
        rcases List.mem_cons.mp hf with rfl | hf
        · rcases List.mem_cons.mp hc with rfl | hch
          · exact ⟨.head _, hfa⟩
          · have hhd : hd ∈ l.splitOnP p := by
              rw [hsp]
              exact .head _
            obtain ⟨hcl, hpc⟩ := ih hd hhd c hch
            exact ⟨List.mem_cons_of_mem _ hcl, hpc⟩
        · have hftl : f ∈ l.splitOnP p := by
            rw [hsp]
            exact List.mem_cons_of_mem _ hf
          obtain ⟨hcl, hpc⟩ := ih f hftl c hc
          exact ⟨List.mem_cons_of_mem _ hcl, hpc⟩

/-- Every token produced by `jsTokens` consists of word characters only. -/
theorem jsTokens_wordlike (s : String) : ∀ t ∈ jsTokens s, wordlike t := by
  intro t ht c hc
  unfold jsTokens at ht
  obtain ⟨f, hf, rfl⟩ := List.mem_map.mp ht
  have hcf : c ∈ f := hc
  obtain ⟨hcl, hcp⟩ := splitOnP_mem_mem jsIsSpace _ f hf c hcf
  unfold normalizeChars at hcl
  obtain ⟨c0, _, hc0⟩ := List.mem_map.mp hcl
  by_cases h : (jsIsWordChar c0 || jsIsSpace c0) = true
  · rw [if_pos h] at hc0
    subst hc0
    have h' : jsIsWordChar c0 = true ∨ jsIsSpace c0 = true := by simpa using h
    rcases h' with hw | hsp
    · exact hw
    · rw [hsp] at hcp
      cases hcp
  · rw [if_neg h] at hc0
    subst hc0
    exact absurd hcp (by decide)

/-- `Char.toUpper` maps word characters to word characters (lower-case latin letters
go to upper-case ones; everything else is unchanged). -/
theorem jsIsWordChar_toUpper (c : Char) (h : jsIsWordChar c = true) :
    jsIsWordChar c.toUpper = true := by
  simp only [Char.toUpper]
  split
  · rename_i hn
    obtain ⟨h1, h2⟩ := hn
    have h1' : 97 ≤ c.toNat := h1
    obtain ⟨n, hn'⟩ : ∃ n, c.toNat = n := ⟨_, rfl⟩
    rw [hn'] at h1' h2 ⊢
    interval_cases n <;> decide
  · exact h

theorem wordlike_jsCapitalize {t : String} (h : wordlike t) : wordlike (jsCapitalize t) := by
  unfold jsCapitalize
  split
  · intro c hc
    exact absurd hc (List.not_mem_nil c)
  · rename_i c0 rest heq
    intro c hc
    rcases List.mem_cons.mp hc with rfl | hcr
    · exact jsIsWordChar_toUpper c0 (h c0 (by rw [show t.data = t.toList from rfl, heq]; exact .head _))
    · exact h c (by rw [show t.data = t.toList from rfl, heq]; exact .tail _ hcr)

theorem noParen_labelFallback {topTerms : List String} (h : ∀ t ∈ topTerms, wordlike t) :
    noParen (labelFallback topTerms) := by
  unfold labelFallback
  split
  · split
    · apply noParen_append
      · apply noParen_intercalate
        intro a ha
        have ha' := List.mem_of_mem_filter ha
        obtain ⟨t, ht, rfl⟩ := List.mem_map.mp ha'
        exact noParen_of_wordlike (wordlike_jsCapitalize (h t (List.take_subset _ _ ht)))
      · decide
    · decide
  · decide

theorem noParen_categories : ∀ c ∈ categories, noParen c.2.2 := by decide

theorem head_eq_some_mem {α : Type} {l : List α} {a : α} (h : l.head? = some a) : a ∈ l := by
  cases l with
  | nil => cases h
  | cons x xs =>
    injection h with h
    rw [← h]
    exact .head _

theorem noParen_generateClusterLabel (clusterTexts : List String) (topTerms : List String)
    (allTerms : List (String × ℕ)) (h : ∀ t ∈ topTerms, wordlike t) :
    noParen (generateClusterLabel clusterTexts topTerms allTerms) := by
  simp only [generateClusterLabel]
  split
  · rename_i best heq
    have hb := head_eq_some_mem heq
    have hb2 := (List.mergeSort_perm _ _).subset hb
    have hb3 := List.mem_of_mem_filter hb2
    obtain ⟨c0, hc0, hbe⟩ := List.mem_map.mp hb3
    rw [← hbe]
    exact noParen_categories c0 hc0
  · exact noParen_labelFallback h

/-- Every key term extracted by `extractKeyTerms` is wordlike (it is a token of one of
the documents). -/
theorem extractKeyTerms_wordlike (documents : List String) (i cnt : ℕ) :
    ∀ w ∈ extractKeyTerms documents i cnt, wordlike w := by
  intro w hw
  simp only [extractKeyTerms] at hw
  split at hw
  · exact absurd hw (List.not_mem_nil w)
  · obtain ⟨pair, hpair, rfl⟩ := List.mem_map.mp hw
    have h1 := List.take_subset _ _ hpair
    have h2 := (List.mergeSort_perm _ _).subset h1
    obtain ⟨u, hu, rfl⟩ := List.mem_map.mp h2
    have hu' := List.dedup_subset _ hu
    by_cases hin : i < (documents.map (fun doc =>
        (jsTokens doc).filter (fun w => w ∉ stopWords ∧ 2 < w.length))).length
    · rw [List.getD_eq_getElem?_getD, List.getElem?_eq_getElem hin] at hu'
      have hmem := List.getElem_mem hin
      obtain ⟨doc, _, hde⟩ := List.mem_map.mp hmem
      rw [← hde] at hu'
      have := List.mem_of_mem_filter hu'
      exact jsTokens_wordlike doc _ this
    · rw [List.getD_eq_getElem?_getD, List.getElem?_eq_none (by omega)] at hu'
      exact absurd hu' (List.not_mem_nil u)

theorem bumpCount_keys {l : List (String × ℕ)} {w : String} {p : String × ℕ}
    (hp : p ∈ bumpCount l w) : p ∈ l ∨ p.1 = w := by
  unfold bumpCount at hp
  split at hp
  · obtain ⟨q, hq, hqe⟩ := List.mem_map.mp hp
    by_cases hqw : q.1 = w
    · rw [if_pos hqw] at hqe
      right
      rw [← hqe]
      exact hqw
    · rw [if_neg hqw] at hqe
      left
      rw [← hqe]
      exact hq
  · rcases List.mem_append.mp hp with h | h
    · exact .inl h
    · right
      rcases List.mem_singleton.mp h with rfl
      rfl

theorem foldl_bumpCount_keys (P : String → Prop) :
    ∀ (ws : List String) (acc : List (String × ℕ)),
    (∀ p ∈ acc, P p.1) → (∀ w ∈ ws, P w) →
    ∀ p ∈ ws.foldl bumpCount acc, P p.1 := by
  intro ws
  induction ws with
  | nil =>
    intro acc hacc _ p hp
    exact hacc p hp
  | cons w ws ih =>
    intro acc hacc hws p hp
    rw [List.foldl_cons] at hp
    refine ih (bumpCount acc w) ?_ (fun x hx => hws x (.tail _ hx)) p hp
    intro q hq
    rcases bumpCount_keys hq with h | h
    · exact hacc q h
    · rw [h]
      exact hws w (.head _)

theorem clusterAllTerms_wordlike (documents : List String) (docIndices : List ℕ) :
    ∀ p ∈ clusterAllTerms documents docIndices, wordlike p.1 := by
  unfold clusterAllTerms
  suffices h : ∀ (dIs : List ℕ) (acc : List (String × ℕ)), (∀ p ∈ acc, wordlike p.1) →
      ∀ p ∈ dIs.foldl (fun acc idx => (extractKeyTerms documents idx 8).foldl bumpCount acc) acc,
      wordlike p.1 by
    exact h docIndices [] (fun p hp => absurd hp (List.not_mem_nil p))
  intro dIs
  induction dIs with
  | nil =>
    intro acc hacc p hp
    exact hacc p hp
  | cons i dIs ih =>
    intro acc hacc p hp
    rw [List.foldl_cons] at hp
    exact ih _ (foldl_bumpCount_keys wordlike _ _ hacc
      (fun w hw => extractKeyTerms_wordlike documents i 8 w hw)) p hp

theorem clusterTopTerms_wordlike (documents : List String) (docIndices : List ℕ) :
    ∀ t ∈ clusterTopTerms documents docIndices, wordlike t := by
  intro t ht
  unfold clusterTopTerms at ht
  obtain ⟨pair, hpair, rfl⟩ := List.mem_map.mp ht
  have h1 := List.take_subset _ _ hpair
  have h2 := (List.mergeSort_perm _ _).subset h1
  exact clusterAllTerms_wordlike documents docIndices pair h2

/-! Injectivity of the decimal rendering used in the dedup suffix. -/

theorem digitChar_inj_lt : ∀ a < 10, ∀ b < 10, Nat.digitChar a = Nat.digitChar b → a = b := by
  decide

theorem map_digitChar_inj : ∀ (l₁ l₂ : List ℕ), (∀ d ∈ l₁, d < 10) → (∀ d ∈ l₂, d < 10) →
    l₁.map Nat.digitChar = l₂.map Nat.digitChar → l₁ = l₂ := by
  intro l₁
  induction l₁ with
  | nil =>
    intro l₂ _ _ h
    cases l₂ with
    | nil => rfl
    | cons e l => cases h
  | cons d l ih =>
    intro l₂ h1 h2 h
    cases l₂ with
    | nil => cases h
    | cons e l₂' =>
      rw [List.map_cons, List.map_cons] at h
      injection h with hde hrest
      rw [digitChar_inj_lt d (h1 d (.head _)) e (h2 e (.head _)) hde,
        ih l₂' (fun x hx => h1 x (.tail _ hx)) (fun x hx => h2 x (.tail _ hx)) hrest]

theorem jsNatRepr_ne_zero_data {b : ℕ} (hb : b ≠ 0) :
    (Nat.digits 10 b).reverse.map Nat.digitChar ≠ [Nat.digitChar 0] := by
  intro h
  have hlen := congrArg List.length h
  rw [List.length_map, List.length_reverse] at hlen
  obtain ⟨d, hd⟩ := List.length_eq_one.mp hlen
  have hd10 : d < 10 := Nat.digits_lt_base (by omega) (by rw [hd]; exact .head _)
  rw [hd] at h
  have hdc : Nat.digitChar d = Nat.digitChar 0 := by
    have : [Nat.digitChar d] = [Nat.digitChar 0] := h
    injection this
  have hd0 : d = 0 := digitChar_inj_lt d hd10 0 (by omega) hdc
  have := Nat.ofDigits_digits 10 b
  rw [hd, hd0] at this
  simp [Nat.ofDigits] at this
  exact hb this.symm

theorem jsNatRepr_inj {a b : ℕ} (h : jsNatRepr a = jsNatRepr b) : a = b := by
  unfold jsNatRepr at h
  by_cases ha : a = 0 <;> by_cases hb : b = 0
  · rw [ha, hb]
  · rw [if_pos ha, if_neg hb] at h
    have hd := congrArg String.data h.symm
    exact absurd (hd.trans (show ((("0" : String)).data = [Nat.digitChar 0]) from rfl))
      (jsNatRepr_ne_zero_data hb)
  · rw [if_neg ha, if_pos hb] at h
    have hd := congrArg String.data h
    exact absurd (hd.trans (show ((("0" : String)).data = [Nat.digitChar 0]) from rfl))
      (jsNatRepr_ne_zero_data ha)
  · rw [if_neg ha, if_neg hb] at h
    have hd := congrArg String.data h
    have h1 : (Nat.digits 10 a).map Nat.digitChar = (Nat.digits 10 b).map Nat.digitChar := by
      have hd' : ((Nat.digits 10 a).map Nat.digitChar).reverse =
          ((Nat.digits 10 b).map Nat.digitChar).reverse := by
        rw [← List.map_reverse, ← List.map_reverse]
        exact hd
      exact List.reverse_injective hd'
    have h2 : Nat.digits 10 a = Nat.digits 10 b :=
      map_digitChar_inj _ _ (fun d hd => Nat.digits_lt_base (by omega) hd)
        (fun d hd => Nat.digits_lt_base (by omega) hd) h1
    calc a = Nat.ofDigits 10 (Nat.digits 10 a) := (Nat.ofDigits_digits 10 a).symm
      _ = Nat.ofDigits 10 (Nat.digits 10 b) := by rw [h2]
      _ = b := Nat.ofDigits_digits 10 b

/-- Splitting two equal lists at the first occurrence of a pivot element. -/
theorem append_pivot_inj {α : Type} (a : α) :
    ∀ (l₁ l₂ r₁ r₂ : List α), l₁ ++ a :: r₁ = l₂ ++ a :: r₂ → a ∉ l₁ → a ∉ l₂ →
    l₁ = l₂ ∧ r₁ = r₂ := by
  intro l₁
  induction l₁ with
  | nil =>
    intro l₂ r₁ r₂ h h1 h2
    cases l₂ with
    | nil =>
      rw [List.nil_append, List.nil_append] at h
      injection h with _ h
      exact ⟨rfl, h⟩
    | cons b l₂' =>
      rw [List.nil_append, List.cons_append] at h
      injection h with hab _
      refine absurd ?_ h2
      rw [hab]
      exact .head _
  | cons x l₁' ih =>
    intro l₂ r₁ r₂ h h1 h2
    cases l₂ with
    | nil =>
      rw [List.cons_append, List.nil_append] at h
      injection h with hxa _
      refine absurd ?_ h1
      rw [← hxa]
      exact .head _
    | cons y l₂' =>
      rw [List.cons_append, List.cons_append] at h
      injection h with hxy hrest
      obtain ⟨hl, hr⟩ := ih l₂' r₁ r₂ hrest (fun hm => h1 (.tail _ hm)) (fun hm => h2 (.tail _ hm))
      exact ⟨by rw [hxy, hl], hr⟩

theorem paren_decomp {b₁ b₂ : String} {k₁ k₂ : ℕ}
    (h : b₁ ++ " (" ++ jsNatRepr k₁ ++ ")" = b₂ ++ " (" ++ jsNatRepr k₂ ++ ")")
    (h₁ : noParen b₁) (h₂ : noParen b₂) : b₁ = b₂ ∧ k₁ = k₂ := by
  have hd := congrArg String.data h
  simp only [String.data_append] at hd
  have he : ∀ (B X : List Char), ((B ++ [' ', '(']) ++ X) ++ [')'] =
      (B ++ [' ']) ++ '(' :: (X ++ [')']) := by
    intro B X
    simp
  rw [he, he] at hd
  obtain ⟨hl, hr⟩ := append_pivot_inj '(' _ _ _ _ hd
    (by
      intro hm
      rcases List.mem_append.mp hm with hm | hm
      · exact h₁ hm
      · rcases List.mem_singleton.mp hm with hm
        cases hm)
    (by
      intro hm
      rcases List.mem_append.mp hm with hm | hm
      · exact h₂ hm
      · rcases List.mem_singleton.mp hm with hm
        cases hm)
  constructor
  · exact String.ext (List.append_inj' hl rfl).1
  · exact jsNatRepr_inj (String.ext (List.append_inj' hr rfl).1)

/-! Association-list lookup facts for the dedup counters. -/

theorem lookupCount_nil (w : String) : lookupCount [] w = 0 := rfl

theorem lookupCount_cons (p : String × ℕ) (rest : List (String × ℕ)) (w : String) :
    lookupCount (p :: rest) w = if p.1 = w then p.2 else lookupCount rest w := by
  unfold lookupCount
  by_cases hp : p.1 = w
  · rw [List.find?_cons_of_pos _ (by simpa using hp), if_pos hp]
    rfl
  · rw [List.find?_cons_of_neg _ (by simpa using hp), if_neg hp]

theorem setCount_cons (p : String × ℕ) (rest : List (String × ℕ)) (l : String) (v : ℕ) :
    setCount (p :: rest) l v = (if p.1 = l then (p.1, v) else p) :: setCount rest l v := rfl

theorem lookupCount_setCount_self (counts : List (String × ℕ)) (l : String) (v : ℕ)
    (h : 0 < lookupCount counts l) : lookupCount (setCount counts l v) l = v := by
  induction counts with
  | nil =>
    rw [lookupCount_nil] at h
    omega
  | cons p rest ih =>
    rw [setCount_cons]
    by_cases hp : p.1 = l
    · rw [if_pos hp, lookupCount_cons, if_pos hp]
    · rw [if_neg hp, lookupCount_cons, if_neg hp]
      rw [lookupCount_cons, if_neg hp] at h
      exact ih h

theorem lookupCount_setCount_other (counts : List (String × ℕ)) (l : String) (v : ℕ)
    (x : String) (hx : ¬(x = l)) : lookupCount (setCount counts l v) x = lookupCount counts x := by
  induction counts with
  | nil => rfl
  | cons p rest ih =>
    rw [setCount_cons]
    by_cases hp : p.1 = l
    · have hx1 : ¬((p.1, v).1 = x) := fun he => hx (he.symm.trans hp)
      have hx2 : ¬(p.1 = x) := fun he => hx (he.symm.trans hp)
      rw [if_pos hp, lookupCount_cons, lookupCount_cons, if_neg hx1, if_neg hx2]
      exact ih
    · rw [if_neg hp, lookupCount_cons, lookupCount_cons]
      by_cases hpx : p.1 = x
      · rw [if_pos hpx, if_pos hpx]
      · rw [if_neg hpx, if_neg hpx]
        exact ih

theorem lookupCount_append_singleton_self (counts : List (String × ℕ)) (l : String)
    (hpos : ∀ p ∈ counts, 0 < p.2) (h0 : lookupCount counts l = 0) :
    lookupCount (counts ++ [(l, 1)]) l = 1 := by
  induction counts with
  | nil =>
    rw [List.nil_append, lookupCount_cons, if_pos rfl]
  | cons p rest ih =>
    rw [List.cons_append, lookupCount_cons]
    rw [lookupCount_cons] at h0
    by_cases hp : p.1 = l
    · rw [if_pos hp] at h0
      have := hpos p (.head _)
      omega
    · rw [if_neg hp] at h0 ⊢
      exact ih (fun q hq => hpos q (.tail _ hq)) h0

theorem lookupCount_append_singleton_other (counts : List (String × ℕ)) (l : String)
    (x : String) (hx : ¬(x = l)) :
    lookupCount (counts ++ [(l, 1)]) x = lookupCount counts x := by
  induction counts with
  | nil =>
    have hlx : ¬((l, 1).1 = x) := fun he => hx he.symm
    rw [List.nil_append, lookupCount_cons, lookupCount_nil, if_neg hlx]
  | cons p rest ih =>
    rw [List.cons_append, lookupCount_cons, lookupCount_cons]
    by_cases hpx : p.1 = x
    · rw [if_pos hpx, if_pos hpx]
    · rw [if_neg hpx, if_neg hpx]
      exact ih

theorem setCount_pos {counts : List (String × ℕ)} {l : String} {v : ℕ}
    (hpos : ∀ p ∈ counts, 0 < p.2) (hv : 0 < v) :
    ∀ p ∈ setCount counts l v, 0 < p.2 := by
  intro p hp
  unfold setCount at hp
  obtain ⟨q, hq, hqe⟩ := List.mem_map.mp hp
  by_cases hql : q.1 = l
  · rw [if_pos hql] at hqe
    rw [← hqe]
    exact hv
  · rw [if_neg hql] at hqe
    rw [← hqe]
    exact hpos q hq

/-- Main dedup invariant: on paren-free labels the pass emits pairwise-distinct
strings, and every emitted string is either a fresh paren-free base label or a
suffixed `base (k)` whose counter `k` exceeds the current count of its base. -/
theorem dedupAux_pairwise :
    ∀ (labels : List String) (counts : List (String × ℕ)),
    (∀ l ∈ labels, noParen l) → (∀ p ∈ counts, 0 < p.2) →
    List.Pairwise (fun a b => a ≠ b) (dedupAux counts labels) ∧
    ∀ s ∈ dedupAux counts labels,
      (noParen s ∧ lookupCount counts s = 0) ∨
      ∃ bk : String × ℕ, s = bk.1 ++ " (" ++ jsNatRepr bk.2 ++ ")" ∧ noParen bk.1 ∧
        lookupCount counts bk.1 < bk.2 := by
  intro labels
  induction labels with
  | nil =>
    intro counts _ _
    exact ⟨List.Pairwise.nil, fun s hs => absurd hs (List.not_mem_nil s)⟩
  | cons l rest ih =>
    intro counts hnp hpos
    have hl : noParen l := hnp l (.head _)
    have hrest : ∀ x ∈ rest, noParen x := fun x hx => hnp x (.tail _ hx)
    rw [dedupAux]
    by_cases hc : 0 < lookupCount counts l
    · rw [if_pos hc]
      obtain ⟨hpw, hchar⟩ := ih (setCount counts l (lookupCount counts l + 1)) hrest
        (setCount_pos hpos (by omega))
      constructor
      · refine List.Pairwise.cons ?_ hpw
        intro s hs he
        rcases hchar s hs with ⟨hnps, _⟩ | ⟨bk, hseq, hnpb, hlt⟩
        · apply hnps
          rw [← he]
          simp only [String.data_append]
          exact List.mem_append_left _ (List.mem_append_left _
            (List.mem_append_right _ (by decide)))
        · obtain ⟨hb, hk⟩ := paren_decomp (he.trans hseq) hl hnpb
          rw [← hb, lookupCount_setCount_self counts l (lookupCount counts l + 1) hc] at hlt
          omega
      · intro s hs
        rcases List.mem_cons.mp hs with rfl | hs'
        · right
          exact ⟨(l, lookupCount counts l + 1), rfl, hl, Nat.lt_succ_self _⟩
        · rcases hchar s hs' with ⟨hnps, h0⟩ | ⟨bk, hseq, hnpb, hlt⟩
          · left
            refine ⟨hnps, ?_⟩
            by_cases hsl : s = l
            · subst hsl
              rw [lookupCount_setCount_self counts s (lookupCount counts s + 1) hc] at h0
              omega
            · rw [lookupCount_setCount_other counts l _ s hsl] at h0
              exact h0
          · right
            refine ⟨bk, hseq, hnpb, ?_⟩
            by_cases hbl : bk.1 = l
            · rw [hbl] at hlt ⊢
              rw [lookupCount_setCount_self counts l (lookupCount counts l + 1) hc] at hlt
              omega
            · rw [lookupCount_setCount_other counts l _ bk.1 hbl] at hlt
              exact hlt
    · rw [if_neg hc]
      have hc0 : lookupCount counts l = 0 := by omega
      obtain ⟨hpw, hchar⟩ := ih (counts ++ [(l, 1)]) hrest (by
        intro p hp
        rcases List.mem_append.mp hp with h | h
        · exact hpos p h
        · rcases List.mem_singleton.mp h with rfl
          omega)
      constructor
      · refine List.Pairwise.cons ?_ hpw
        intro s hs he
        rcases hchar s hs with ⟨hnps, h0⟩ | ⟨bk, hseq, hnpb, _⟩
        · rw [← he, lookupCount_append_singleton_self counts l hpos hc0] at h0
          omega
        · apply hl
          rw [he, hseq]
          simp only [String.data_append]
          exact List.mem_append_left _ (List.mem_append_left _
            (List.mem_append_right _ (by decide)))
      · intro s hs
        rcases List.mem_cons.mp hs with rfl | hs'
        · exact .inl ⟨hl, hc0⟩
        · rcases hchar s hs' with ⟨hnps, h0⟩ | ⟨bk, hseq, hnpb, hlt⟩
          · left
            refine ⟨hnps, ?_⟩
            by_cases hsl : s = l
            · subst hsl
              rw [lookupCount_append_singleton_self counts s hpos hc0] at h0
              omega
            · rw [lookupCount_append_singleton_other counts l s hsl] at h0
              exact h0
          · right
            refine ⟨bk, hseq, hnpb, ?_⟩
            by_cases hbl : bk.1 = l
            · rw [hbl] at hlt ⊢
              rw [lookupCount_append_singleton_self counts l hpos hc0] at hlt
              rw [hc0]
              omega
            · rw [lookupCount_append_singleton_other counts l bk.1 hbl] at hlt
              exact hlt

/-- C9: after the label-deduplication pass of `POST`, no two cluster summaries carry
an identical label — the emitted label list is pairwise distinct, for every document
list and every cluster map.  (Generated base labels never contain a parenthesis, so
the appended ` (k)` counters cannot collide with an original label.) -/
theorem C9_label_uniqueness (documents : List String) (clusters : List (List ℕ)) :
    List.Pairwise (fun a b => a ≠ b) (responseLabels documents clusters) := by
  unfold responseLabels dedupLabels
  refine (dedupAux_pairwise _ [] ?_ (fun p hp => absurd hp (List.not_mem_nil p))).1
  intro l hl
  obtain ⟨dI, _, rfl⟩ := List.mem_map.mp hl
  exact noParen_generateClusterLabel _ _ _
    (fun t ht => clusterTopTerms_wordlike documents dI t ht)

end SDC
